import Mathlib

/-!
# Verification of the irsb-solver deterministic pipeline

A shallow embedding, in Lean 4, of the deterministic core of the
`irsb-solver` repository: the canonical JSON codec
(`src/utils/canonicalJson.ts`), identifier derivation
(`src/intent/normalize.ts`, `src/plan/plan.ts`), the intent schema
(`src/types/intent.ts`), the policy gate (`src/policy/policy.ts`), path
safety (`src/storage/fsSafe.ts`), the evidence manifest hasher
(`src/evidence/manifestHash.ts`), the evidence bundle builder
(`src/evidence/createEvidenceBundle.ts`) and the evidence bundle
validator (`src/evidence/validateEvidenceBundle.ts`).

JavaScript runtime values are embedded as the inductive type `JsValue`;
JavaScript builtins used by the code (`JSON.stringify`, `Array.sort`,
`String.prototype.localeCompare`, `Date` parsing, `node:path`
resolution) are embedded as executable Lean functions, with their
documented JS semantics, next to the repository functions that call
them.  Machine-independent behaviour (SHA-256) is implemented in full
over `Nat` arithmetic mod 2^32.
-/

namespace IrsbSolver

/-! ## JavaScript values

A JS runtime value of the JSON-compatible fragment handled by
`canonicalJson`.  Numbers are either integers (doubles with integral
value; `JSON.stringify` prints them without a decimal point) or finite
non-integral decimals `m × 10^(-k)`, which covers every float literal
appearing in the repository's data (`JSON.stringify` prints the
shortest round-trip decimal form, which for such values is the decimal
expansion of `m × 10^(-k)`).  Objects are insertion-ordered key/value
lists with pairwise-distinct keys (JS objects cannot carry a key
twice); `JsValue.WF` states that key discipline. -/

inductive JsNumber where
  | int (n : Int)
  | dec (m : Int) (k : Nat)
  deriving Repr, DecidableEq

inductive JsValue where
  | null
  | undef
  | bool (b : Bool)
  | num (n : JsNumber)
  | str (s : String)
  | arr (elems : List JsValue)
  | obj (entries : List (String × JsValue))
  deriving Repr, Inhabited

/-- Decimal digits of a natural number, most significant first. -/
def natDigits (n : Nat) : List Char :=
  (Nat.toDigits 10 n)

/-- Rendering of a JS number by `JSON.stringify` / `String(n)`:
integers in plain decimal, non-integral decimals `m × 10^(-k)` with the
decimal point inserted `k` digits from the right. -/
def renderJsNumber : JsNumber → String
  | .int n => toString n
  | .dec m k =>
      let sign := if m < 0 then "-" else ""
      let digits := natDigits m.natAbs
      let digits := if digits.length ≤ k then
        List.replicate (k + 1 - digits.length) '0' ++ digits
      else digits
      let intPart := digits.take (digits.length - k)
      let fracPart := digits.drop (digits.length - k)
      sign ++ String.mk intPart ++ "." ++ String.mk fracPart

/-- The JSON escape of one character, as produced by `JSON.stringify`:
`"` and `\` are backslash-escaped, the named control escapes are used
for backspace, tab, newline, form feed and carriage return, all other
control characters become `\u00XX`, and everything else is copied. -/
def escChar (c : Char) : List Char :=
  if c = '"' then ['\\', '"']
  else if c = '\\' then ['\\', '\\']
  else if c = (Char.ofNat 8) then ['\\', 'b']
  else if c = (Char.ofNat 9) then ['\\', 't']
  else if c = (Char.ofNat 10) then ['\\', 'n']
  else if c = (Char.ofNat 12) then ['\\', 'f']
  else if c = (Char.ofNat 13) then ['\\', 'r']
  else if c.toNat < 32 then
    let lo := c.toNat % 16
    let hi := (c.toNat / 16) % 16
    ['\\', 'u', '0', '0',
      (if hi < 10 then Char.ofNat (48 + hi) else Char.ofNat (87 + hi)),
      (if lo < 10 then Char.ofNat (48 + lo) else Char.ofNat (87 + lo))]
  else [c]

/-- A JSON string literal as emitted by `JSON.stringify`. -/
def quoteStr (s : String) : String :=
  "\"" ++ String.mk (s.data.flatMap escChar) ++ "\""

mutual
/-- Embeds `JSON.stringify(value)` (no replacer, no spacing): `undefined`
yields JS `undefined` (here `none`); inside arrays `undefined` elements
print as `null`; inside objects entries whose value stringifies to
`undefined` are dropped. -/
def stringify : JsValue → Option String
  | .null => some "null"
  | .undef => none
  | .bool b => some (cond b "true" "false")
  | .num n => some (renderJsNumber n)
  | .str s => some (quoteStr s)
  | .arr xs => some ("[" ++ String.intercalate "," (stringifyArr xs) ++ "]")
  | .obj kvs => some ("\x7b" ++ String.intercalate "," (stringifyObj kvs) ++ "\x7d")

def stringifyArr : List JsValue → List String
  | [] => []
  | x :: xs => (stringify x).getD "null" :: stringifyArr xs

def stringifyObj : List (String × JsValue) → List String
  | [] => []
  | (k, v) :: kvs =>
    match stringify v with
    | some sv => (quoteStr k ++ ":" ++ sv) :: stringifyObj kvs
    | none => stringifyObj kvs
end

/-! ## UTF-16 code units and string order

JS strings are sequences of UTF-16 code units; `String.prototype.length`
counts code units and the default `Array.prototype.sort()` compares
strings code unit by code unit.  Lean chars are Unicode scalar values;
a scalar above `0xFFFF` contributes two code units. -/

/-- Number of UTF-16 code units of one character. -/
def utf16Width (c : Char) : Nat :=
  if c.toNat < 65536 then 1 else 2

/-- JS `string.length`: the UTF-16 code-unit count. -/
def utf16Len (s : String) : Nat :=
  (s.data.map utf16Width).sum

/-- Number of UTF-8 bytes of one character. -/
def utf8Width (c : Char) : Nat :=
  if c.toNat < 128 then 1
  else if c.toNat < 2048 then 2
  else if c.toNat < 65536 then 3
  else 4

/-- UTF-8 byte length of a string. -/
def utf8Len (s : String) : Nat :=
  (s.data.map utf8Width).sum

/-- The UTF-16 code units of one character (big picture only needed for
ordering: a scalar `≥ 0x10000` splits into a high and a low surrogate). -/
def utf16Units (c : Char) : List Nat :=
  if c.toNat < 65536 then [c.toNat]
  else
    let v := c.toNat - 65536
    [55296 + v / 1024, 56320 + v % 1024]

/-- JS string comparison as used by `Array.prototype.sort()` with no
comparator: lexicographic on UTF-16 code units. -/
def jsLtUnits : List Nat → List Nat → Bool
  | [], [] => false
  | [], _ :: _ => true
  | _ :: _, [] => false
  | a :: as, b :: bs =>
    if a < b then true else if b < a then false else jsLtUnits as bs

def jsLt (a b : String) : Bool :=
  jsLtUnits (a.data.flatMap utf16Units) (b.data.flatMap utf16Units)

def jsLe (a b : String) : Bool := !(jsLt b a)

/-- The string order of JS `Array.prototype.sort()`, as a relation. -/
def strLe (a b : String) : Prop := jsLe a b = true

instance : DecidableRel strLe := fun a b => decEq (jsLe a b) true

/-- The entry order used by `sortObjectKeys` (keys, code-unit order). -/
def entryLe (a b : String × JsValue) : Prop := jsLe a.1 b.1 = true

instance : DecidableRel entryLe := fun a b => decEq (jsLe a.1 b.1) true

/-! ## canonicalJson (`src/utils/canonicalJson.ts`)

```ts
function sortObjectKeys(value: unknown): unknown {
  if (value === null || value === undefined) return value;
  if (Array.isArray(value)) return value.map(sortObjectKeys);
  if (typeof value === "object") {
    const sorted = {};
    const keys = Object.keys(value).sort();
    for (const key of keys) sorted[key] = sortObjectKeys(value[key]);
    return sorted;
  }
  return value;
}
export function canonicalJson(value: unknown): string {
  return JSON.stringify(sortObjectKeys(value));
}
```

For an object with pairwise-distinct keys (the only kind a JS runtime
produces), taking `Object.keys`, sorting them and rebuilding by index
is the same as sorting the entry list itself by key, which is how the
embedding proceeds (values are recursed first; the order of those two
steps is immaterial). -/

mutual
def sortObjectKeys : JsValue → JsValue
  | .null => .null
  | .undef => .undef
  | .bool b => .bool b
  | .num n => .num n
  | .str s => .str s
  | .arr xs => .arr (sortArr xs)
  | .obj kvs => .obj ((sortEntries kvs).insertionSort entryLe)

def sortArr : List JsValue → List JsValue
  | [] => []
  | x :: xs => sortObjectKeys x :: sortArr xs

def sortEntries : List (String × JsValue) → List (String × JsValue)
  | [] => []
  | (k, v) :: kvs => (k, sortObjectKeys v) :: sortEntries kvs
end

/-- Embeds `canonicalJson` from `src/utils/canonicalJson.ts`.  Like
`JSON.stringify` it returns `undefined` (here `none`) on values that do
not serialize. -/
def canonicalJson (v : JsValue) : Option String :=
  stringify (sortObjectKeys v)

/-- The value of `canonicalJson` coerced to a string the way JS string contexts
coerce: joining `[..., undefined].join(":")` renders `undefined` as the
empty string.  Every call site in the repository passes a value (string
or object) on which `canonicalJson` is defined. -/
def canonicalJsonD (v : JsValue) : String :=
  (canonicalJson v).getD ""

end IrsbSolver

namespace IrsbSolver

/-! ## SHA-256 (`src/utils/hash.ts` uses `node:crypto` createHash)

A full executable SHA-256 over `Nat` arithmetic mod 2^32, applied to
the UTF-8 bytes of the input string, exactly what
`createHash("sha256").update(input, "utf8").digest("hex")` computes. -/

/-- Truncation to a 32-bit word. -/
def w32 (n : Nat) : Nat := n % 4294967296

/-- Right rotation of a 32-bit word. -/
def rotr (k n : Nat) : Nat :=
  w32 ((n >>> k) ||| (n <<< (32 - k)))

/-- UTF-8 encoding of one character. -/
def utf8Char (c : Char) : List Nat :=
  let v := c.toNat
  if v < 128 then [v]
  else if v < 2048 then [192 + v / 64, 128 + v % 64]
  else if v < 65536 then [224 + v / 4096, 128 + v / 64 % 64, 128 + v % 64]
  else [240 + v / 262144, 128 + v / 4096 % 64, 128 + v / 64 % 64, 128 + v % 64]

/-- UTF-8 bytes of a string. -/
def utf8Bytes (s : String) : List Nat :=
  s.data.flatMap utf8Char

/-- Big-endian 8-byte encoding (for the SHA-256 length field). -/
def be64 (n : Nat) : List Nat :=
  [n >>> 56 % 256, n >>> 48 % 256, n >>> 40 % 256, n >>> 32 % 256,
   n >>> 24 % 256, n >>> 16 % 256, n >>> 8 % 256, n % 256]

/-- SHA-256 message padding: append `0x80`, zero bytes up to 56 mod 64,
then the bit length as 8 bytes big-endian. -/
def sha256Pad (msg : List Nat) : List Nat :=
  let l := msg.length
  let zeros := (64 + 55 - l % 64) % 64
  msg ++ 128 :: List.replicate zeros 0 ++ be64 (8 * l)

/-- Groups a byte list into big-endian 32-bit words. -/
def bytesToWords : List Nat → List Nat
  | b0 :: b1 :: b2 :: b3 :: rest =>
      (((b0 * 256 + b1) * 256 + b2) * 256 + b3) :: bytesToWords rest
  | _ => []

/-- Splits a word list into 16-word blocks. -/
def toBlocks : List Nat → List (List Nat)
  | [] => []
  | w :: rest => (w :: rest).take 16 :: toBlocks ((w :: rest).drop 16)
termination_by ws => ws.length
decreasing_by
  simp only [List.length_drop, List.length_cons]
  omega

/-- The 64 SHA-256 round constants. -/
def sha256K : List Nat :=
  [1116352408, 1899447441, 3049323471, 3921009573, 961987163, 1508970993, 2453635748, 2870763221,
   3624381080, 310598401, 607225278, 1426881987, 1925078388, 2162078206, 2614888103, 3248222580,
   3835390401, 4022224774, 264347078, 604807628, 770255983, 1249150122, 1555081692, 1996064986,
   2554220882, 2821834349, 2952996808, 3210313671, 3336571891, 3584528711, 113926993, 338241895,
   666307205, 773529912, 1294757372, 1396182291, 1695183700, 1986661051, 2177026350, 2456956037,
   2730485921, 2820302411, 3259730800, 3345764771, 3516065817, 3600352804, 4094571909, 275423344,
   430227734, 506948616, 659060556, 883997877, 958139571, 1322822218, 1537002063, 1747873779,
   1955562222, 2024104815, 2227730452, 2361852424, 2428436474, 2756734187, 3204031479, 3329325298]

/-- The SHA-256 working state: eight 32-bit words. -/
structure Sha256State where
  a : Nat
  b : Nat
  c : Nat
  d : Nat
  e : Nat
  f : Nat
  g : Nat
  h : Nat
  deriving Repr

/-- The SHA-256 initial hash value. -/
def sha256Init : Sha256State :=
  ⟨1779033703, 3144134277, 1013904242, 2773480762,
   1359893119, 2600822924, 528734635, 1541459225⟩

/-- One step of the message-schedule extension. -/
def schedWord (w : List Nat) : Nat :=
  let get (i : Nat) := w.getD (w.length - i) 0
  let w15 := get 15
  let w2 := get 2
  let s0 := (rotr 7 w15) ^^^ (rotr 18 w15) ^^^ (w15 >>> 3)
  let s1 := (rotr 17 w2) ^^^ (rotr 19 w2) ^^^ (w2 >>> 10)
  w32 (get 16 + s0 + get 7 + s1)

/-- Extends a 16-word block by `fuel` schedule words (48 in SHA-256). -/
def extendSchedule : List Nat → Nat → List Nat
  | w, 0 => w
  | w, fuel + 1 => extendSchedule (w ++ [schedWord w]) fuel

/-- One SHA-256 round. -/
def sha256Round (st : Sha256State) (kw : Nat × Nat) : Sha256State :=
  let S1 := (rotr 6 st.e) ^^^ (rotr 11 st.e) ^^^ (rotr 25 st.e)
  let ch := (st.e &&& st.f) ^^^ ((4294967295 - st.e) &&& st.g)
  let temp1 := w32 (st.h + S1 + ch + kw.1 + kw.2)
  let S0 := (rotr 2 st.a) ^^^ (rotr 13 st.a) ^^^ (rotr 22 st.a)
  let maj := (st.a &&& st.b) ^^^ (st.a &&& st.c) ^^^ (st.b &&& st.c)
  let temp2 := w32 (S0 + maj)
  ⟨w32 (temp1 + temp2), st.a, st.b, st.c, w32 (st.d + temp1), st.e, st.f, st.g⟩

/-- Compression of one 16-word block into the running state. -/
def sha256Compress (st : Sha256State) (block : List Nat) : Sha256State :=
  let w := extendSchedule block 48
  let r := (sha256K.zip w).foldl sha256Round st
  ⟨w32 (st.a + r.a), w32 (st.b + r.b), w32 (st.c + r.c), w32 (st.d + r.d),
   w32 (st.e + r.e), w32 (st.f + r.f), w32 (st.g + r.g), w32 (st.h + r.h)⟩

/-- A lowercase hex digit. -/
def hexDigit (d : Nat) : Char :=
  if d < 10 then Char.ofNat (48 + d) else Char.ofNat (87 + d)

/-- Eight lowercase hex digits of a 32-bit word, most significant first. -/
def wordHex (n : Nat) : List Char :=
  [hexDigit (n >>> 28 % 16), hexDigit (n >>> 24 % 16),
   hexDigit (n >>> 20 % 16), hexDigit (n >>> 16 % 16),
   hexDigit (n >>> 12 % 16), hexDigit (n >>> 8 % 16),
   hexDigit (n >>> 4 % 16), hexDigit (n % 16)]

/-- The lowercase-hex digest of a final state. -/
def digestHex (st : Sha256State) : String :=
  String.mk (wordHex st.a ++ wordHex st.b ++ wordHex st.c ++ wordHex st.d ++
             wordHex st.e ++ wordHex st.f ++ wordHex st.g ++ wordHex st.h)

/-- SHA-256 of a byte sequence, as a lowercase hex string. -/
def sha256Bytes (msg : List Nat) : String :=
  digestHex ((toBlocks (bytesToWords (sha256Pad msg))).foldl sha256Compress sha256Init)

/-- Embeds `sha256` from `src/utils/hash.ts`:
`createHash("sha256").update(input, "utf8").digest("hex")`. -/
def sha256 (input : String) : String :=
  sha256Bytes (utf8Bytes input)

end IrsbSolver

namespace IrsbSolver

/-! ## Intent schema (`src/types/intent.ts`) and normalization
(`src/intent/normalize.ts`)

`IntentV0Schema` is a zod `z.object` (non-strict: unknown keys are
stripped, not rejected).  The JS `Date` constructor used by
`IsoTimestampSchema`'s refinement and by the policy's expiry check is
embedded as an oracle `jsDate : String → Option Int` returning the
epoch milliseconds of `new Date(s).getTime()`, `none` when that value
is `NaN`. -/

def INTENT_VERSION : String := "0.1.0"

structure SafeReportInputs where
  subject : String
  data : List (String × JsValue)
  deriving Repr

structure AcceptanceCriteriaItem where
  type : String
  description : Option String
  value : Option JsValue
  deriving Repr

structure IntentV0 where
  intentVersion : String
  intentId : Option String
  requester : String
  createdAt : String
  expiresAt : Option String
  jobType : String
  inputs : SafeReportInputs
  constraints : Option (List (String × JsValue))
  acceptanceCriteria : Option (List AcceptanceCriteriaItem)
  meta : Option (List (String × JsValue))
  deriving Repr

/-- Embeds `NormalizedIntent`, i.e. `IntentV0` with `intentId` present. -/
structure NormalizedIntent where
  intentVersion : String
  intentId : String
  requester : String
  createdAt : String
  expiresAt : Option String
  jobType : String
  inputs : SafeReportInputs
  constraints : Option (List (String × JsValue))
  acceptanceCriteria : Option (List AcceptanceCriteriaItem)
  meta : Option (List (String × JsValue))
  deriving Repr

/-- The JS object held by the `inputs` field after zod parsing: a fresh
object with the schema's keys in declaration order. -/
def inputsJson (i : SafeReportInputs) : JsValue :=
  .obj [("subject", .str i.subject), ("data", .obj i.data)]

/-- Embeds `computeIntentId` from `src/intent/normalize.ts`:
`sha256(["intent", intentVersion, requester, canonicalJson(jobType),
canonicalJson(inputs), canonicalJson(constraints ?? {})].join(":"))`. -/
def computeIntentId (intent : IntentV0) : String :=
  sha256 (String.intercalate ":"
    ["intent", intent.intentVersion, intent.requester,
     canonicalJsonD (.str intent.jobType),
     canonicalJsonD (inputsJson intent.inputs),
     canonicalJsonD (.obj (intent.constraints.getD []))])

/-- Embeds `computeRunId` from `src/plan/plan.ts`:
`sha256(["run", intentId, jobType, canonicalJson(inputs)].join(":"))`. -/
def computeRunId (intent : NormalizedIntent) : String :=
  sha256 (String.intercalate ":"
    ["run", intent.intentId, intent.jobType,
     canonicalJsonD (inputsJson intent.inputs)])

/-- A zod issue: a path into the value and a message. -/
abbrev ZodIssue := List String × String

/-- The property named `k` of a parsed JS object: the value of its
first entry with that key, `undefined` when absent. -/
def getProp (kvs : List (String × JsValue)) (k : String) : JsValue :=
  ((kvs.find? (fun p => p.1 = k)).map (fun p => p.2)).getD .undef

def issuesOf {α} : Except (List ZodIssue) α → List ZodIssue
  | .ok _ => []
  | .error es => es

def okOf {α} : Except (List ZodIssue) α → Option α
  | .ok a => some a
  | .error _ => none

/-- Embeds `z.literal(lit)` on a field value. -/
def zLiteral (path : List String) (lit : String) : JsValue → Except (List ZodIssue) String
  | .str s => if s = lit then .ok s else .error [(path, "Invalid literal value, expected \"" ++ lit ++ "\"")]
  | _ => .error [(path, "Invalid literal value, expected \"" ++ lit ++ "\"")]

/-- Embeds `z.string()` with a minimum JS length. -/
def zString (path : List String) (minLen : Nat) : JsValue → Except (List ZodIssue) String
  | .str s =>
    if utf16Len s < minLen then
      .error [(path, "String must contain at least " ++ toString minLen ++ " character(s)")]
    else .ok s
  | _ => .error [(path, "Expected string")]

/-- Embeds `z.enum(["SAFE_REPORT"])`. -/
def zJobType (path : List String) : JsValue → Except (List ZodIssue) String
  | .str s => if s = "SAFE_REPORT" then .ok s else .error [(path, "Invalid enum value")]
  | _ => .error [(path, "Invalid enum value")]

/-- Embeds `z.record(z.unknown())`: a plain object; every entry is kept. -/
def zRecord (path : List String) : JsValue → Except (List ZodIssue) (List (String × JsValue))
  | .obj kvs => .ok kvs
  | _ => .error [(path, "Expected object")]

/-- Embeds `IsoTimestampSchema`: a string `s` with `!isNaN(new Date(s).getTime())`. -/
def zIsoTimestamp (jsDate : String → Option Int) (path : List String) :
    JsValue → Except (List ZodIssue) String
  | .str s => if (jsDate s).isSome then .ok s else .error [(path, "Invalid ISO timestamp")]
  | _ => .error [(path, "Expected string")]

/-- Embeds `.optional()`: `undefined` (an absent property) parses to `none`. -/
def zOptional {α} (inner : JsValue → Except (List ZodIssue) α) :
    JsValue → Except (List ZodIssue) (Option α)
  | .undef => .ok none
  | v => (inner v).map some

/-- Embeds `SafeReportInputsSchema`: `z.object({ subject: z.string().min(1),
data: z.record(z.unknown()) })`. -/
def zInputs (path : List String) : JsValue → Except (List ZodIssue) SafeReportInputs
  | .obj kvs =>
    let rSubject := zString (path ++ ["subject"]) 1 (getProp kvs "subject")
    let rData := zRecord (path ++ ["data"]) (getProp kvs "data")
    match okOf rSubject, okOf rData with
    | some s, some d => .ok ⟨s, d⟩
    | _, _ => .error (issuesOf rSubject ++ issuesOf rData)
  | _ => .error [(path, "Expected object")]

/-- Embeds `AcceptanceCriteriaItemSchema`. -/
def zAcceptanceItem (path : List String) : JsValue → Except (List ZodIssue) AcceptanceCriteriaItem
  | .obj kvs =>
    let rType := zString (path ++ ["type"]) 0 (getProp kvs "type")
    let rDescr := zOptional (zString (path ++ ["description"]) 0) (getProp kvs "description")
    let rValue : Option JsValue :=
      match getProp kvs "value" with
      | .undef => none
      | v => some v
    match okOf rType, okOf rDescr with
    | some t, some d => .ok ⟨t, d, rValue⟩
    | _, _ => .error (issuesOf rType ++ issuesOf rDescr)
  | _ => .error [(path, "Expected object")]

/-- Embeds `z.array(AcceptanceCriteriaItemSchema)`. -/
def zAcceptanceArray (path : List String) : JsValue → Except (List ZodIssue) (List AcceptanceCriteriaItem)
  | .arr xs =>
    let rs := (xs.zip (List.range xs.length)).map (fun p => zAcceptanceItem (path ++ [toString p.2]) p.1)
    if rs.all (fun r => (okOf r).isSome) then
      .ok (rs.filterMap okOf)
    else
      .error (rs.flatMap issuesOf)
  | _ => .error [(path, "Expected array")]

/-- Embeds `parseIntent` from `src/types/intent.ts`: `IntentV0Schema.parse`.
`IntentV0Schema` is a non-strict `z.object`, so properties outside the
schema are ignored; issues of all fields are collected, in the schema's
declaration order. -/
def parseIntent (jsDate : String → Option Int) (v : JsValue) :
    Except (List ZodIssue) IntentV0 :=
  match v with
  | .obj kvs =>
    let rVersion := zLiteral ["intentVersion"] INTENT_VERSION (getProp kvs "intentVersion")
    let rIntentId := zOptional (zString ["intentId"] 0) (getProp kvs "intentId")
    let rRequester := zString ["requester"] 1 (getProp kvs "requester")
    let rCreatedAt := zIsoTimestamp jsDate ["createdAt"] (getProp kvs "createdAt")
    let rExpiresAt := zOptional (zIsoTimestamp jsDate ["expiresAt"]) (getProp kvs "expiresAt")
    let rJobType := zJobType ["jobType"] (getProp kvs "jobType")
    let rInputs := zInputs ["inputs"] (getProp kvs "inputs")
    let rConstraints := zOptional (zRecord ["constraints"]) (getProp kvs "constraints")
    let rAccept := zOptional (zAcceptanceArray ["acceptanceCriteria"]) (getProp kvs "acceptanceCriteria")
    let rMeta := zOptional (zRecord ["meta"]) (getProp kvs "meta")
    match okOf rVersion, okOf rIntentId, okOf rRequester, okOf rCreatedAt, okOf rExpiresAt,
          okOf rJobType, okOf rInputs, okOf rConstraints, okOf rAccept, okOf rMeta with
    | some ver, some iid, some req, some cat, some exp, some jt, some inp, some cons, some acc, some met =>
      .ok ⟨ver, iid, req, cat, exp, jt, inp, cons, acc, met⟩
    | _, _, _, _, _, _, _, _, _, _ =>
      .error (issuesOf rVersion ++ issuesOf rIntentId ++ issuesOf rRequester ++
              issuesOf rCreatedAt ++ issuesOf rExpiresAt ++ issuesOf rJobType ++
              issuesOf rInputs ++ issuesOf rConstraints ++ issuesOf rAccept ++ issuesOf rMeta)
  | _ => .error [([], "Expected object")]

/-- The `{...intent, intentId}` result object of `normalizeIntent`. -/
def toNormalized (i : IntentV0) : NormalizedIntent :=
  { intentVersion := i.intentVersion
    intentId := (i.intentId).getD (computeIntentId i)
    requester := i.requester
    createdAt := i.createdAt
    expiresAt := i.expiresAt
    jobType := i.jobType
    inputs := i.inputs
    constraints := i.constraints
    acceptanceCriteria := i.acceptanceCriteria
    meta := i.meta }

/-- Embeds `normalizeIntent` from `src/intent/normalize.ts`: validate with
`parseIntent`, then `intentId = intent.intentId ?? computeIntentId(intent)`. -/
def normalizeIntent (jsDate : String → Option Int) (v : JsValue) :
    Except (List ZodIssue) NormalizedIntent :=
  (parseIntent jsDate v).map toNormalized

end IrsbSolver

namespace IrsbSolver

/-! ## Policy gate (`src/policy/policy.ts`) -/

/-- The slice of `ResolvedConfig` read by `evaluatePolicy`.
`POLICY_MAX_ARTIFACT_MB` is modelled as a positive integer (spec §6;
the config schema coerces the environment string to a number). -/
structure ResolvedConfig where
  POLICY_JOBTYPE_ALLOWLIST : List String
  POLICY_MAX_ARTIFACT_MB : Nat
  POLICY_REQUESTER_ALLOWLIST : Option (List String)
  deriving Repr

structure PolicyResult where
  allowed : Bool
  reasons : List String
  deriving Repr, DecidableEq

/-- Check 1 of `evaluatePolicy`: jobType allowlisted. -/
def jobTypeReason (intent : NormalizedIntent) (config : ResolvedConfig) : List String :=
  if !(config.POLICY_JOBTYPE_ALLOWLIST.contains intent.jobType) then
    ["jobType '" ++ intent.jobType ++ "' not in allowlist [" ++
      String.intercalate ", " config.POLICY_JOBTYPE_ALLOWLIST ++ "]"]
  else []

/-- Check 2 of `evaluatePolicy`: `expiresAt` not in the past.  The JS
guard `if (intent.expiresAt)` skips both an absent field and the empty
string (falsy); `new Date(s).getTime() < Date.now()` is false when the
date is invalid (`NaN`). -/
def expiryReason (intent : NormalizedIntent) (jsDate : String → Option Int) (now : Int) : List String :=
  match intent.expiresAt with
  | none => []
  | some s =>
    if s = "" then []
    else
      match jsDate s with
      | none => []
      | some t => if t < now then ["intent expired at " ++ s] else []

/-- Check 3 of `evaluatePolicy`: requester allowlist, when configured. -/
def requesterReason (intent : NormalizedIntent) (config : ResolvedConfig) : List String :=
  match config.POLICY_REQUESTER_ALLOWLIST with
  | none => []
  | some allow =>
    if !(allow.contains intent.requester) then
      ["requester '" ++ intent.requester ++ "' not in allowlist"]
    else []

/-- The reason string of the size guard. -/
def inputsSizeMsg (intent : NormalizedIntent) (config : ResolvedConfig) : String :=
  "inputs size " ++
    (toString (utf16Len (canonicalJsonD (inputsJson intent.inputs))) ++
      " bytes exceeds max " ++ toString (config.POLICY_MAX_ARTIFACT_MB * 1024 * 1024) ++
      " bytes (" ++ toString config.POLICY_MAX_ARTIFACT_MB ++ " MB)")

/-- Check 4 of `evaluatePolicy`: size guard.  The source compares
`canonicalJson(intent.inputs).length` — the JS string length, i.e. the
UTF-16 code-unit count — against `POLICY_MAX_ARTIFACT_MB * 1024 * 1024`. -/
def inputsSizeReason (intent : NormalizedIntent) (config : ResolvedConfig) : List String :=
  let inputsJsonLen := utf16Len (canonicalJsonD (inputsJson intent.inputs))
  let maxBytes := config.POLICY_MAX_ARTIFACT_MB * 1024 * 1024
  if inputsJsonLen > maxBytes then [inputsSizeMsg intent config] else []

/-- Embeds `evaluatePolicy` from `src/policy/policy.ts`: pushes the reason of
every failing check, in source order, onto one list and returns
`{ allowed: reasons.length === 0, reasons }`. -/
def evaluatePolicy (intent : NormalizedIntent) (config : ResolvedConfig)
    (jsDate : String → Option Int) (now : Int) : PolicyResult :=
  let reasons :=
    jobTypeReason intent config ++
    expiryReason intent jsDate now ++
    requesterReason intent config ++
    inputsSizeReason intent config
  { allowed := reasons.length = 0, reasons := reasons }

end IrsbSolver

namespace IrsbSolver

/-! ## POSIX path resolution (`node:path`, used by `src/storage/fsSafe.ts`)

`normalize`/`resolve`/`join` of `node:path` for POSIX paths, on `/`
separated segment lists.  `resolve` output never carries a trailing
slash (except the root), which is the only form `safeJoin` compares;
`join`'s trailing-slash preservation is immaterial here because its
result is passed through `resolve` again. -/

/-- JS / node string prefix test (`String.prototype.startsWith`),
char-level. -/
def jsStartsWith (s pre : String) : Bool :=
  pre.data.isPrefixOf s.data

/-- Splitting a path on `/` (`String.prototype.split` / what
`node:path` iterates over), char-level. -/
def splitSlashChars : List Char → List (List Char)
  | [] => [[]]
  | c :: rest =>
    if c = '/' then [] :: splitSlashChars rest
    else
      match splitSlashChars rest with
      | g :: gs => (c :: g) :: gs
      | [] => [[c]]

def splitSlash (s : String) : List String :=
  (splitSlashChars s.data).map String.mk

/-- Processes `.` and `..` segments; for an absolute path, `..` at the
root disappears, for a relative path it is kept. -/
def normSegs (isAbs : Bool) (segs : List String) : List String :=
  (segs.foldl (fun acc seg =>
    if seg = "" ∨ seg = "." then acc
    else if seg = ".." then
      match acc with
      | [] => if isAbs then [] else [".."]
      | a :: rest => if a = ".." then ".." :: acc else rest
    else seg :: acc) []).reverse

/-- Embeds `path.posix.normalize` (without trailing-slash preservation). -/
def normalizePath (p : String) : String :=
  let isAbs := jsStartsWith p "/"
  let segs := normSegs isAbs (splitSlash p)
  if isAbs then "/" ++ String.intercalate "/" segs
  else if segs = [] then "." else String.intercalate "/" segs

/-- Embeds `path.posix.resolve(p)` for a process working directory `cwd`
(assumed absolute): `p` itself when absolute, else `cwd + "/" + p`,
normalized. -/
def resolvePath (cwd p : String) : String :=
  if jsStartsWith p "/" then normalizePath p
  else normalizePath (cwd ++ "/" ++ p)

/-- Embeds `path.posix.join(a, b)`: concatenation of the non-empty arguments
with `/`, normalized; the empty join is `"."`. -/
def joinPath (a b : String) : String :=
  let joined := if a = "" then b else if b = "" then a else a ++ "/" ++ b
  if joined = "" then "." else normalizePath joined

/-! ## Safe filesystem utilities (`src/storage/fsSafe.ts`) -/

structure PathValidation where
  valid : Bool
  reason : Option String
  deriving Repr, DecidableEq

/-- Substring test (JS `String.prototype.includes`). -/
def containsSub (s pat : String) : Bool :=
  decide (pat.data <:+: s.data)

/-- Embeds `validateRelativePath` from `src/storage/fsSafe.ts`. -/
def validateRelativePath (path : String) : PathValidation :=
  if path = "" then ⟨false, some "Path is empty"⟩
  else if jsStartsWith path "/" then ⟨false, some "Absolute paths not allowed"⟩
  else
    let normalized := normalizePath path
    if jsStartsWith normalized ".." ∨ containsSub normalized "/.." ∨ containsSub normalized "\\.." then
      ⟨false, some "Path traversal not allowed"⟩
    else if containsSub path (String.mk [Char.ofNat 0]) then
      ⟨false, some "Null bytes not allowed in path"⟩
    else ⟨true, none⟩

/-- Embeds `safeJoin(baseDir, p)` from `src/storage/fsSafe.ts`:

```ts
const base = resolve(baseDir);
const joined = join(base, ...paths);
const resolved = resolve(joined);
if (!resolved.startsWith(base + "/") && resolved !== base) return null;
return resolved;
```

The sentinel `null` is `none`. -/
def safeJoin (cwd baseDir p : String) : Option String :=
  let base := resolvePath cwd baseDir
  let joined := joinPath base p
  let resolved := resolvePath cwd joined
  if ¬(jsStartsWith resolved (base ++ "/")) ∧ resolved ≠ base then none
  else some resolved

end IrsbSolver

namespace IrsbSolver

/-! ## Evidence manifest (`src/evidence/manifest.ts`, `manifestHash.ts`) -/

structure ArtifactEntry where
  path : String
  sha256 : String
  bytes : Nat
  contentType : String
  deriving Repr, DecidableEq

structure ExecutionSummary where
  status : String
  error : Option String
  deriving Repr, DecidableEq

structure SolverMetadata where
  service : String
  serviceVersion : String
  gitCommit : Option String
  deriving Repr, DecidableEq

structure EvidenceManifestV0 where
  manifestVersion : String
  intentId : String
  runId : String
  jobType : String
  createdAt : String
  artifacts : List ArtifactEntry
  policyDecision : PolicyResult
  executionSummary : ExecutionSummary
  solver : SolverMetadata
  deriving Repr

def MANIFEST_VERSION : String := "0.1.0"

/-- The JS object for one artifact entry as pushed by `scanArtifacts`
(insertion order `path, sha256, bytes, contentType`). -/
def artifactJson (a : ArtifactEntry) : JsValue :=
  .obj [("path", .str a.path), ("sha256", .str a.sha256),
        ("bytes", .num (.int a.bytes)), ("contentType", .str a.contentType)]

def policyDecisionJson (p : PolicyResult) : JsValue :=
  .obj [("allowed", .bool p.allowed), ("reasons", .arr (p.reasons.map .str))]

def executionSummaryJson (e : ExecutionSummary) : JsValue :=
  .obj [("status", .str e.status),
        ("error", match e.error with | some s => .str s | none => .undef)]

def solverJson (s : SolverMetadata) : JsValue :=
  .obj [("service", .str s.service), ("serviceVersion", .str s.serviceVersion),
        ("gitCommit", match s.gitCommit with | some g => .str g | none => .undef)]

/-- The manifest object as constructed in `createEvidenceBundle`
(insertion order as in the source literal).  An absent optional field
is an `undefined` property, which serializes identically to a missing
one. -/
def manifestJson (m : EvidenceManifestV0) : JsValue :=
  .obj [("manifestVersion", .str m.manifestVersion),
        ("intentId", .str m.intentId),
        ("runId", .str m.runId),
        ("jobType", .str m.jobType),
        ("createdAt", .str m.createdAt),
        ("artifacts", .arr (m.artifacts.map artifactJson)),
        ("policyDecision", policyDecisionJson m.policyDecision),
        ("executionSummary", executionSummaryJson m.executionSummary),
        ("solver", solverJson m.solver)]

/-- Rest-destructuring `const { createdAt: _createdAt, ...hashable }`:
every property except the named one, in original order. -/
def removeKey (k : String) : JsValue → JsValue
  | .obj kvs => .obj (kvs.filter (fun p => p.1 ≠ k))
  | v => v

/-- Embeds `getManifestForHashing` from `src/evidence/manifestHash.ts`. -/
def getManifestForHashing (m : EvidenceManifestV0) : JsValue :=
  removeKey "createdAt" (manifestJson m)

/-- Embeds `computeManifestHash` from `src/evidence/manifestHash.ts`:
SHA-256 over the canonical JSON of the manifest without `createdAt`. -/
def computeManifestHash (m : EvidenceManifestV0) : String :=
  sha256 (canonicalJsonD (getManifestForHashing m))

/-! ## MIME types (`src/utils/mime.ts`) -/

/-- The regex `/\.[^.]+$/` applied to the lowercased path: the suffix
from the last `.` on, provided at least one character follows it. -/
def lastDotExt (cs : List Char) : Option (List Char) :=
  let rev := cs.reverse
  let pre := rev.takeWhile (fun c => c ≠ '.')
  if pre.length < rev.length ∧ pre ≠ [] then some ('.' :: pre.reverse) else none

/-- Embeds `getMimeType` from `src/utils/mime.ts`. -/
def getMimeType (filePath : String) : String :=
  let lower := String.mk (filePath.data.map Char.toLower)
  match lastDotExt lower.data with
  | none => "application/octet-stream"
  | some ext =>
    let e := String.mk ext
    if e = ".json" then "application/json"
    else if e = ".md" then "text/markdown"
    else if e = ".txt" then "text/plain"
    else if e = ".html" then "text/html"
    else if e = ".xml" then "application/xml"
    else if e = ".csv" then "text/csv"
    else if e = ".yaml" then "application/yaml"
    else if e = ".yml" then "application/yaml"
    else "application/octet-stream"

/-! ## locale-aware string comparison (`String.prototype.localeCompare`)

`scanArtifacts` sorts entries with `a.path.localeCompare(b.path)`.
`localeCompare` uses the host's default ICU collation.  The model below
is Node's default (root/en) collation restricted to ASCII strings made
of letters, digits, `.` and `/`: a primary pass compares characters
case-insensitively (by lowercased code point, which on that alphabet
agrees with the root collation's primary ordering), and a tie is broken
by a tertiary pass placing lowercase before uppercase.  In particular
`"a".localeCompare("B") < 0` while `"B" < "a"` in code-point order. -/

def compareNatList : List Nat → List Nat → Ordering
  | [], [] => .eq
  | [], _ :: _ => .lt
  | _ :: _, [] => .gt
  | a :: as, b :: bs =>
    if a < b then .lt else if b < a then .gt else compareNatList as bs

/-- Primary collation key: the lowercased code point. -/
def primKey (c : Char) : Nat := c.toLower.toNat

/-- Tertiary collation key: lowercase (and caseless) before uppercase. -/
def caseKey (c : Char) : Nat := if 'A' ≤ c ∧ c ≤ 'Z' then 1 else 0

/-- Embeds `a.localeCompare(b)` under the default ICU collation, for the ASCII
alphabet described above: negative, zero or positive. -/
def localeCompare (a b : String) : Int :=
  match compareNatList (a.data.map primKey) (b.data.map primKey) with
  | .lt => -1
  | .gt => 1
  | .eq =>
    match compareNatList (a.data.map caseKey) (b.data.map caseKey) with
    | .lt => -1
    | .gt => 1
    | .eq => 0

end IrsbSolver

namespace IrsbSolver

/-! ## Evidence bundle creation (`src/evidence/createEvidenceBundle.ts`)

The filesystem under `runDir/artifacts` is the input: a listing of
relative file names with the size reported by `getFileSize` and the
streaming SHA-256 reported by `hashFile`. -/

structure FileStat where
  size : Nat
  sha256hex : String
  deriving Repr, DecidableEq

/-- The comparator `(a, b) => a.path.localeCompare(b.path)` of
`scanArtifacts`, as a relation. -/
def artifactLe (a b : ArtifactEntry) : Prop := localeCompare a.path b.path ≤ 0

instance : DecidableRel artifactLe := fun x y => Int.decLe (localeCompare x.path y.path) 0

/-- JS `Array.prototype.sort()` on strings (code-unit order), as used
by `listFilesRecursive`. -/
def jsSortStrings (l : List String) : List String :=
  l.insertionSort strLe

/-- Embeds `scanArtifacts` from `src/evidence/createEvidenceBundle.ts`:
list files sorted, skip `.tmp-*`, skip names whose `safeJoin` fails,
build `{path: "artifacts/" + file, sha256, bytes, contentType}` and
sort the entries with `a.path.localeCompare(b.path)`. -/
def scanArtifacts (cwd runDir : String) (files : List (String × FileStat)) :
    List ArtifactEntry :=
  let artifactsDir := joinPath runDir "artifacts"
  let sortedNames := jsSortStrings (files.map (fun p => p.1))
  let entries := sortedNames.filterMap (fun f =>
    if jsStartsWith f ".tmp-" then none
    else match safeJoin cwd artifactsDir f with
      | none => none
      | some _ =>
        match (files.find? (fun p => p.1 = f)).map (fun p => p.2) with
        | none => none
        | some st => some ⟨"artifacts/" ++ f, st.sha256hex, st.size, getMimeType f⟩)
  entries.insertionSort artifactLe

def SERVICE_VERSION : String := "0.1.0"

structure CreateEvidenceBundleParams where
  runDir : String
  intentId : String
  runId : String
  jobType : String
  policyDecision : PolicyResult
  executionSummary : ExecutionSummary
  gitCommit : Option String
  deriving Repr

/-- The manifest assembled by `createEvidenceBundle` (`createdAt` is
`new Date().toISOString()`, injected here as `nowIso`). -/
def buildManifest (cwd nowIso : String) (params : CreateEvidenceBundleParams)
    (files : List (String × FileStat)) : EvidenceManifestV0 :=
  { manifestVersion := MANIFEST_VERSION
    intentId := params.intentId
    runId := params.runId
    jobType := params.jobType
    createdAt := nowIso
    artifacts := scanArtifacts cwd params.runDir files
    policyDecision := params.policyDecision
    executionSummary := params.executionSummary
    solver := ⟨"irsb-solver", SERVICE_VERSION, params.gitCommit⟩ }

/-! ## Evidence manifest schema (`EvidenceManifestV0Schema`) -/

def zBool (path : List String) : JsValue → Except (List ZodIssue) Bool
  | .bool b => .ok b
  | _ => .error [(path, "Expected boolean")]

/-- Embeds `z.number().int().nonnegative()`. -/
def zIntNonneg (path : List String) : JsValue → Except (List ZodIssue) Nat
  | .num (.int n) =>
    if n < 0 then .error [(path, "Number must be greater than or equal to 0")]
    else .ok n.toNat
  | .num (.dec _ _) => .error [(path, "Expected integer, received float")]
  | _ => .error [(path, "Expected number")]

/-- The regex `^[a-f0-9]{64}$`. -/
def isSha256Hex (s : String) : Bool :=
  s.data.length = 64 ∧ s.data.all (fun c => ('a' ≤ c ∧ c ≤ 'f') ∨ ('0' ≤ c ∧ c ≤ '9'))

def zSha256Hex (path : List String) : JsValue → Except (List ZodIssue) String
  | .str s => if isSha256Hex s then .ok s else .error [(path, "Invalid")]
  | _ => .error [(path, "Expected string")]

def zStringArray (path : List String) : JsValue → Except (List ZodIssue) (List String)
  | .arr xs =>
    let rs := (xs.zip (List.range xs.length)).map
      (fun p => zString (path ++ [toString p.2]) 0 p.1)
    if rs.all (fun r => (okOf r).isSome) then .ok (rs.filterMap okOf)
    else .error (rs.flatMap issuesOf)
  | _ => .error [(path, "Expected array")]

def zStatusEnum (path : List String) : JsValue → Except (List ZodIssue) String
  | .str s =>
    if s = "SUCCESS" ∨ s = "FAILED" ∨ s = "REFUSED" then .ok s
    else .error [(path, "Invalid enum value")]
  | _ => .error [(path, "Invalid enum value")]

def zArtifactEntry (path : List String) : JsValue → Except (List ZodIssue) ArtifactEntry
  | .obj kvs =>
    let rPath := zString (path ++ ["path"]) 0 (getProp kvs "path")
    let rSha := zSha256Hex (path ++ ["sha256"]) (getProp kvs "sha256")
    let rBytes := zIntNonneg (path ++ ["bytes"]) (getProp kvs "bytes")
    let rCt := zString (path ++ ["contentType"]) 0 (getProp kvs "contentType")
    match okOf rPath, okOf rSha, okOf rBytes, okOf rCt with
    | some p, some s, some b, some c => .ok ⟨p, s, b, c⟩
    | _, _, _, _ =>
      .error (issuesOf rPath ++ issuesOf rSha ++ issuesOf rBytes ++ issuesOf rCt)
  | _ => .error [(path, "Expected object")]

def zArtifactsArray (path : List String) : JsValue → Except (List ZodIssue) (List ArtifactEntry)
  | .arr xs =>
    let rs := (xs.zip (List.range xs.length)).map
      (fun p => zArtifactEntry (path ++ [toString p.2]) p.1)
    if rs.all (fun r => (okOf r).isSome) then .ok (rs.filterMap okOf)
    else .error (rs.flatMap issuesOf)
  | _ => .error [(path, "Expected array")]

def zPolicyDecision (path : List String) : JsValue → Except (List ZodIssue) PolicyResult
  | .obj kvs =>
    let rAllowed := zBool (path ++ ["allowed"]) (getProp kvs "allowed")
    let rReasons := zStringArray (path ++ ["reasons"]) (getProp kvs "reasons")
    match okOf rAllowed, okOf rReasons with
    | some a, some r => .ok ⟨a, r⟩
    | _, _ => .error (issuesOf rAllowed ++ issuesOf rReasons)
  | _ => .error [(path, "Expected object")]

def zExecutionSummary (path : List String) : JsValue → Except (List ZodIssue) ExecutionSummary
  | .obj kvs =>
    let rStatus := zStatusEnum (path ++ ["status"]) (getProp kvs "status")
    let rError := zOptional (zString (path ++ ["error"]) 0) (getProp kvs "error")
    match okOf rStatus, okOf rError with
    | some s, some e => .ok ⟨s, e⟩
    | _, _ => .error (issuesOf rStatus ++ issuesOf rError)
  | _ => .error [(path, "Expected object")]

def zSolver (path : List String) : JsValue → Except (List ZodIssue) SolverMetadata
  | .obj kvs =>
    let rService := zLiteral (path ++ ["service"]) "irsb-solver" (getProp kvs "service")
    let rVersion := zString (path ++ ["serviceVersion"]) 0 (getProp kvs "serviceVersion")
    let rCommit := zOptional (zString (path ++ ["gitCommit"]) 0) (getProp kvs "gitCommit")
    match okOf rService, okOf rVersion, okOf rCommit with
    | some s, some v, some c => .ok ⟨s, v, c⟩
    | _, _, _ => .error (issuesOf rService ++ issuesOf rVersion ++ issuesOf rCommit)
  | _ => .error [(path, "Expected object")]

/-- Embeds `EvidenceManifestV0Schema.safeParse`, embedded: field issues
collected in schema declaration order. -/
def parseManifestSchema (v : JsValue) : Except (List ZodIssue) EvidenceManifestV0 :=
  match v with
  | .obj kvs =>
    let rVersion := zLiteral ["manifestVersion"] MANIFEST_VERSION (getProp kvs "manifestVersion")
    let rIntentId := zString ["intentId"] 0 (getProp kvs "intentId")
    let rRunId := zString ["runId"] 0 (getProp kvs "runId")
    let rJobType := zString ["jobType"] 0 (getProp kvs "jobType")
    let rCreatedAt := zString ["createdAt"] 0 (getProp kvs "createdAt")
    let rArtifacts := zArtifactsArray ["artifacts"] (getProp kvs "artifacts")
    let rPolicy := zPolicyDecision ["policyDecision"] (getProp kvs "policyDecision")
    let rExec := zExecutionSummary ["executionSummary"] (getProp kvs "executionSummary")
    let rSolver := zSolver ["solver"] (getProp kvs "solver")
    match okOf rVersion, okOf rIntentId, okOf rRunId, okOf rJobType, okOf rCreatedAt,
          okOf rArtifacts, okOf rPolicy, okOf rExec, okOf rSolver with
    | some ver, some iid, some rid, some jt, some cat, some arts, some pol, some ex, some sol =>
      .ok ⟨ver, iid, rid, jt, cat, arts, pol, ex, sol⟩
    | _, _, _, _, _, _, _, _, _ =>
      .error (issuesOf rVersion ++ issuesOf rIntentId ++ issuesOf rRunId ++
              issuesOf rJobType ++ issuesOf rCreatedAt ++ issuesOf rArtifacts ++
              issuesOf rPolicy ++ issuesOf rExec ++ issuesOf rSolver)
  | _ => .error [([], "Expected object")]

end IrsbSolver

namespace IrsbSolver

/-! ## Evidence bundle validation (`src/evidence/validateEvidenceBundle.ts`)

The bundle's on-disk state is the input: the outcome of reading
`evidence/manifest.json` (absent, raw-but-unparseable with the parser's
message, or parsed to a value), and the stat/stream-hash oracle for
every other file by absolute path.  The embedding additionally records
the trace of filesystem operations the function performs, so that
"no artifact file is touched" is a provable statement. -/

structure BundleFs where
  manifest : Option (Except String JsValue)
  files : List (String × FileStat)

inductive FsOp where
  | existsOp (p : String)
  | readOp (p : String)
  | sizeOp (p : String)
  | hashOp (p : String)
  deriving Repr, DecidableEq

structure ValidationError where
  code : String
  message : String
  path : Option String
  deriving Repr, DecidableEq

structure ValidationResult where
  valid : Bool
  errors : List ValidationError
  manifest : Option EvidenceManifestV0
  deriving Repr

/-- JS `substring(0, 16)`. -/
def take16 (s : String) : String := String.mk (s.data.take 16)

/-- One iteration of the artifact loop of `validateEvidenceBundle`
(each `continue` is a branch). -/
def checkArtifact (cwd runDir : String) (fs : BundleFs)
    (acc : List ValidationError × List FsOp) (artifact : ArtifactEntry) :
    List ValidationError × List FsOp :=
  let (errors, ops) := acc
  let pathValidation := validateRelativePath artifact.path
  if ¬pathValidation.valid then
    (errors ++ [⟨"UNSAFE_PATH", pathValidation.reason.getD "Invalid path", some artifact.path⟩], ops)
  else
    match safeJoin cwd runDir artifact.path with
    | none =>
      (errors ++ [⟨"PATH_ESCAPE", "Path escapes run directory", some artifact.path⟩], ops)
    | some fullPath =>
      match (fs.files.find? (fun p => p.1 = fullPath)).map (fun p => p.2) with
      | none =>
        (errors ++ [⟨"ARTIFACT_NOT_FOUND", "Artifact file not found", some artifact.path⟩],
         ops ++ [.existsOp fullPath])
      | some st =>
        let errors :=
          if st.size ≠ artifact.bytes then
            errors ++ [⟨"SIZE_MISMATCH",
              "Size mismatch: expected " ++ toString artifact.bytes ++ ", got " ++ toString st.size,
              some artifact.path⟩]
          else errors
        let errors :=
          if st.sha256hex ≠ artifact.sha256 then
            errors ++ [⟨"HASH_MISMATCH",
              "Hash mismatch: expected " ++ take16 artifact.sha256 ++ "..., got " ++
                take16 st.sha256hex ++ "...",
              some artifact.path⟩]
          else errors
        (errors, ops ++ [.existsOp fullPath, .sizeOp fullPath, .hashOp fullPath])

/-- Embeds `validateEvidenceBundle` from `src/evidence/validateEvidenceBundle.ts`,
returning its result together with the trace of filesystem operations. -/
def validateEvidenceBundle (cwd runDir : String) (fs : BundleFs) :
    ValidationResult × List FsOp :=
  let manifestPath := joinPath (joinPath runDir "evidence") "manifest.json"
  match fs.manifest with
  | none =>
    (⟨false, [⟨"MANIFEST_NOT_FOUND", "Manifest file not found", none⟩], none⟩,
     [.existsOp manifestPath])
  | some (.error parseMsg) =>
    (⟨false, [⟨"MANIFEST_PARSE_ERROR", "Failed to parse manifest: " ++ parseMsg, none⟩], none⟩,
     [.existsOp manifestPath, .readOp manifestPath])
  | some (.ok mv) =>
    match parseManifestSchema mv with
    | .error issues =>
      (⟨false,
        issues.map (fun i =>
          ⟨"SCHEMA_VALIDATION_ERROR", String.intercalate "." i.1 ++ ": " ++ i.2, none⟩),
        none⟩,
       [.existsOp manifestPath, .readOp manifestPath])
    | .ok validManifest =>
      let (errors, ops) := validManifest.artifacts.foldl
        (checkArtifact cwd runDir fs)
        ([], [.existsOp manifestPath, .readOp manifestPath])
      (⟨errors.length = 0, errors, some validManifest⟩, ops)

end IrsbSolver

namespace IrsbSolver

/-! ## Order theory of the embedded JS string comparison -/

theorem char_valid_range (c : Char) :
    c.toNat < 55296 ∨ (57343 < c.toNat ∧ c.toNat < 1114112) := by
  have h := c.valid
  unfold UInt32.isValidChar Nat.isValidChar at h
  rcases h with h | ⟨h1, h2⟩
  · left; exact h
  · right; exact ⟨h1, h2⟩

theorem char_toNat_inj {c₁ c₂ : Char} (h : c₁.toNat = c₂.toNat) : c₁ = c₂ :=
  Char.ext (UInt32.ext h)

theorem utf16Units_ne_nil (c : Char) : utf16Units c ≠ [] := by
  unfold utf16Units
  split <;> simp

theorem utf16Units_head_cases (c : Char) :
    (c.toNat < 65536 ∧ utf16Units c = [c.toNat]) ∨
    (65536 ≤ c.toNat ∧
      utf16Units c = [55296 + (c.toNat - 65536) / 1024, 56320 + (c.toNat - 65536) % 1024]) := by
  unfold utf16Units
  split
  · left; exact ⟨by omega, rfl⟩
  · right; exact ⟨by omega, rfl⟩

/-- UTF-16 encoding of one character is prefix-determined: equal unit
streams start with the same character. -/
theorem utf16Units_cancel {c₁ c₂ : Char} {t₁ t₂ : List Nat}
    (h : utf16Units c₁ ++ t₁ = utf16Units c₂ ++ t₂) : c₁ = c₂ ∧ t₁ = t₂ := by
  rcases utf16Units_head_cases c₁ with ⟨hb₁, he₁⟩ | ⟨hb₁, he₁⟩ <;>
    rcases utf16Units_head_cases c₂ with ⟨hb₂, he₂⟩ | ⟨hb₂, he₂⟩ <;>
    rw [he₁, he₂] at h <;> simp at h
  · exact ⟨char_toNat_inj h.1, h.2⟩
  · exfalso
    have hv := char_valid_range c₁
    have h1 := h.1
    have hlt : (c₂.toNat - 65536) / 1024 < 1024 := by
      have := char_valid_range c₂
      omega
    omega
  · exfalso
    have hv := char_valid_range c₂
    have h1 := h.1
    have hlt : (c₁.toNat - 65536) / 1024 < 1024 := by
      have := char_valid_range c₁
      omega
    omega
  · refine ⟨char_toNat_inj ?_, h.2.2⟩
    have h1 := h.1
    have h2 := h.2.1
    omega

/-- UTF-16 encoding of a string is injective. -/
theorem utf16_flatMap_inj :
    ∀ (l₁ l₂ : List Char), l₁.flatMap utf16Units = l₂.flatMap utf16Units → l₁ = l₂ := by
  intro l₁
  induction l₁ with
  | nil =>
    intro l₂ h
    cases l₂ with
    | nil => rfl
    | cons c t =>
      exfalso
      simp only [List.flatMap_nil, List.flatMap_cons] at h
      have := utf16Units_ne_nil c
      cases he : utf16Units c with
      | nil => exact this he
      | cons u us => rw [he] at h; simp at h
  | cons c t ih =>
    intro l₂ h
    cases l₂ with
    | nil =>
      exfalso
      simp only [List.flatMap_nil, List.flatMap_cons] at h
      have := utf16Units_ne_nil c
      cases he : utf16Units c with
      | nil => exact this he
      | cons u us => rw [he] at h; simp at h
    | cons c' t' =>
      simp only [List.flatMap_cons] at h
      obtain ⟨hc, ht⟩ := utf16Units_cancel h
      rw [hc, ih t' ht]

theorem jsLtUnits_asymm :
    ∀ {a b : List Nat}, jsLtUnits a b = true → jsLtUnits b a = false := by
  intro a
  induction a with
  | nil => intro b h; cases b <;> simp_all [jsLtUnits]
  | cons x xs ih =>
    intro b h
    cases b with
    | nil => simp [jsLtUnits] at h
    | cons y ys =>
      simp only [jsLtUnits] at h ⊢
      by_cases hxy : x < y
      · rw [if_neg (by omega), if_pos hxy]
      · by_cases hyx : y < x
        · rw [if_neg hxy, if_pos hyx] at h
          exact absurd h (by simp)
        · rw [if_neg hxy, if_neg hyx] at h
          rw [if_neg hyx, if_neg hxy]
          exact ih h

theorem jsLtUnits_eq_of_not :
    ∀ {a b : List Nat}, jsLtUnits a b = false → jsLtUnits b a = false → a = b := by
  intro a
  induction a with
  | nil => intro b h₁ _; cases b <;> simp_all [jsLtUnits]
  | cons x xs ih =>
    intro b h₁ h₂
    cases b with
    | nil => simp [jsLtUnits] at h₂
    | cons y ys =>
      simp only [jsLtUnits] at h₁ h₂
      by_cases hxy : x < y
      · rw [if_pos hxy] at h₁; exact absurd h₁ (by simp)
      · by_cases hyx : y < x
        · rw [if_pos hyx] at h₂; exact absurd h₂ (by simp)
        · rw [if_neg hxy, if_neg hyx] at h₁
          rw [if_neg hyx, if_neg hxy] at h₂
          have hx : x = y := by omega
          rw [hx, ih h₁ h₂]

theorem jsLtUnits_trans :
    ∀ {a b c : List Nat}, jsLtUnits a b = true → jsLtUnits b c = true →
      jsLtUnits a c = true := by
  intro a
  induction a with
  | nil =>
    intro b c hab hbc
    cases b with
    | nil => simp [jsLtUnits] at hab
    | cons y ys =>
      cases c with
      | nil => simp [jsLtUnits] at hbc
      | cons z zs => simp [jsLtUnits]
  | cons x xs ih =>
    intro b c hab hbc
    cases b with
    | nil => simp [jsLtUnits] at hab
    | cons y ys =>
      cases c with
      | nil => simp [jsLtUnits] at hbc
      | cons z zs =>
        simp only [jsLtUnits] at hab hbc ⊢
        by_cases hxy : x < y
        · by_cases hyz : y < z
          · rw [if_pos (by omega : x < z)]
          · by_cases hzy : z < y
            · rw [if_neg hyz, if_pos hzy] at hbc
              exact absurd hbc (by simp)
            · rw [if_pos (by omega : x < z)]
        · by_cases hyx : y < x
          · rw [if_neg hxy, if_pos hyx] at hab
            exact absurd hab (by simp)
          · by_cases hyz : y < z
            · rw [if_pos (by omega : x < z)]
            · by_cases hzy : z < y
              · rw [if_neg hyz, if_pos hzy] at hbc
                exact absurd hbc (by simp)
              · rw [if_neg hxy, if_neg hyx] at hab
                rw [if_neg hyz, if_neg hzy] at hbc
                rw [if_neg (by omega : ¬ x < z), if_neg (by omega : ¬ z < x)]
                exact ih hab hbc

theorem jsLtUnits_total (a b : List Nat) :
    jsLtUnits a b = true ∨ jsLtUnits b a = true ∨ a = b := by
  rcases Bool.eq_false_or_eq_true (jsLtUnits a b) with h₁ | h₁
  · exact Or.inl h₁
  · rcases Bool.eq_false_or_eq_true (jsLtUnits b a) with h₂ | h₂
    · exact Or.inr (Or.inl h₂)
    · exact Or.inr (Or.inr (jsLtUnits_eq_of_not h₁ h₂))

theorem strLe_total (a b : String) : strLe a b ∨ strLe b a := by
  unfold strLe jsLe
  by_cases h : jsLt b a = true
  · right
    unfold jsLt at h ⊢
    simp [jsLtUnits_asymm h]
  · left
    simp [h]

theorem strLe_trans {a b c : String} (h₁ : strLe a b) (h₂ : strLe b c) : strLe a c := by
  unfold strLe jsLe jsLt at *
  simp only [Bool.not_eq_true'] at h₁ h₂ ⊢
  by_contra hcon
  simp only [Bool.not_eq_false] at hcon
  rcases jsLtUnits_total (a.data.flatMap utf16Units) (b.data.flatMap utf16Units) with h | h | h
  · exact absurd (jsLtUnits_trans hcon h) (by simp [h₂])
  · exact absurd h (by simp [h₁])
  · rw [← h] at h₂
    exact absurd hcon (by simp [h₂])

theorem strLe_antisymm {a b : String} (h₁ : strLe a b) (h₂ : strLe b a) : a = b := by
  unfold strLe jsLe jsLt at h₁ h₂
  simp only [Bool.not_eq_true'] at h₁ h₂
  have := jsLtUnits_eq_of_not h₂ h₁
  exact String.ext (utf16_flatMap_inj _ _ this)

instance : IsTotal String strLe := ⟨strLe_total⟩
instance : IsTrans String strLe := ⟨fun _ _ _ => strLe_trans⟩
instance : IsAntisymm String strLe := ⟨fun _ _ => strLe_antisymm⟩

instance : IsTotal (String × JsValue) entryLe :=
  ⟨fun a b => strLe_total a.1 b.1⟩
instance : IsTrans (String × JsValue) entryLe :=
  ⟨fun _ _ _ => strLe_trans⟩

end IrsbSolver

namespace IrsbSolver

/-! ## Key-permutation equivalence of JS values (for claim C2)

`PermEq a b` says `b` is `a` with object entries reordered (at any
nesting level) and values equivalent; `WF` is the JS object discipline
that keys within one object are pairwise distinct. -/

mutual
inductive PermEq : JsValue → JsValue → Prop where
  | null : PermEq .null .null
  | undef : PermEq .undef .undef
  | bool (b : Bool) : PermEq (.bool b) (.bool b)
  | num (n : JsNumber) : PermEq (.num n) (.num n)
  | str (s : String) : PermEq (.str s) (.str s)
  | arr {xs ys : List JsValue} : PermEqList xs ys → PermEq (.arr xs) (.arr ys)
  | obj {kvs mid kvs₂ : List (String × JsValue)} :
      PermEqEntries kvs mid → mid.Perm kvs₂ → PermEq (.obj kvs) (.obj kvs₂)

inductive PermEqList : List JsValue → List JsValue → Prop where
  | nil : PermEqList [] []
  | cons {x y : JsValue} {xs ys : List JsValue} :
      PermEq x y → PermEqList xs ys → PermEqList (x :: xs) (y :: ys)

inductive PermEqEntries : List (String × JsValue) → List (String × JsValue) → Prop where
  | nil : PermEqEntries [] []
  | cons {k : String} {v w : JsValue} {t t' : List (String × JsValue)} :
      PermEq v w → PermEqEntries t t' → PermEqEntries ((k, v) :: t) ((k, w) :: t')
end

mutual
def WF : JsValue → Bool
  | .arr xs => WFList xs
  | .obj kvs => decide ((kvs.map Prod.fst).Nodup) && WFEntries kvs
  | _ => true

def WFList : List JsValue → Bool
  | [] => true
  | x :: xs => WF x && WFList xs

def WFEntries : List (String × JsValue) → Bool
  | [] => true
  | (_, v) :: t => WF v && WFEntries t
end

mutual
theorem permEq_refl : ∀ v : JsValue, PermEq v v
  | .null => .null
  | .undef => .undef
  | .bool b => .bool b
  | .num n => .num n
  | .str s => .str s
  | .arr xs => .arr (permEqList_refl xs)
  | .obj kvs => .obj (permEqEntries_refl kvs) (List.Perm.refl kvs)

theorem permEqList_refl : ∀ xs : List JsValue, PermEqList xs xs
  | [] => .nil
  | x :: xs => .cons (permEq_refl x) (permEqList_refl xs)

theorem permEqEntries_refl : ∀ kvs : List (String × JsValue), PermEqEntries kvs kvs
  | [] => .nil
  | (_, v) :: t => .cons (permEq_refl v) (permEqEntries_refl t)
end

theorem sortEntries_eq_map (l : List (String × JsValue)) :
    sortEntries l = l.map (fun p => (p.1, sortObjectKeys p.2)) := by
  induction l with
  | nil => rfl
  | cons p t ih => cases p; simp [sortEntries, ih]

theorem permEqEntries_keys :
    ∀ {t t' : List (String × JsValue)}, PermEqEntries t t' →
      t.map Prod.fst = t'.map Prod.fst
  | _, _, .nil => rfl
  | _, _, .cons _ ht => by simp [permEqEntries_keys ht]

/-- Two sorted permutations of an entry list with pairwise-distinct
keys are equal (keys decide the order; distinctness substitutes for
antisymmetry). -/
theorem sorted_perm_unique_by_key :
    ∀ {l₁ l₂ : List (String × JsValue)}, l₁.Perm l₂ →
      List.Sorted entryLe l₁ → List.Sorted entryLe l₂ →
      (l₁.map Prod.fst).Nodup → l₁ = l₂ := by
  intro l₁
  induction l₁ with
  | nil => intro l₂ hp _ _ _; exact (List.Perm.nil_eq hp).symm ▸ rfl
  | cons a t ih =>
    intro l₂ hp hs₁ hs₂ hnd
    cases l₂ with
    | nil => exact absurd hp.symm (by simp)
    | cons b t₂ =>
      have hnd' : a.1 ∉ t.map Prod.fst ∧ (t.map Prod.fst).Nodup := by
        rw [List.map_cons] at hnd
        exact List.nodup_cons.mp hnd
      by_cases hab : a = b
      · subst hab
        have hpt : t.Perm t₂ := hp.cons_inv
        have := ih hpt (List.sorted_cons.mp hs₁).2 (List.sorted_cons.mp hs₂).2 hnd'.2
        rw [this]
      · exfalso
        have hbmem : b ∈ a :: t := hp.symm.subset (List.mem_cons_self b t₂)
        have hbt : b ∈ t := by
          cases hbmem with
          | head => exact absurd rfl (fun h => hab h.symm)
          | tail _ h => exact h
        have hamem : a ∈ b :: t₂ := hp.subset (List.mem_cons_self a t)
        have hat : a ∈ t₂ := by
          cases hamem with
          | head => exact absurd rfl hab
          | tail _ h => exact h
        have h₁ : entryLe a b := (List.sorted_cons.mp hs₁).1 b hbt
        have h₂ : entryLe b a := (List.sorted_cons.mp hs₂).1 a hat
        have hkey : a.1 = b.1 := strLe_antisymm h₁ h₂
        exact hnd'.1 (hkey ▸ List.mem_map_of_mem Prod.fst hbt)

/-- Lemma: `insertionSort` by keys is permutation-invariant on entry lists
with pairwise-distinct keys. -/
theorem insertionSort_eq_of_perm {l₁ l₂ : List (String × JsValue)}
    (hp : l₁.Perm l₂) (hnd : (l₁.map Prod.fst).Nodup) :
    l₁.insertionSort entryLe = l₂.insertionSort entryLe := by
  apply sorted_perm_unique_by_key
  · exact ((List.perm_insertionSort entryLe l₁).trans hp).trans
      (List.perm_insertionSort entryLe l₂).symm
  · exact List.sorted_insertionSort entryLe l₁
  · exact List.sorted_insertionSort entryLe l₂
  · exact (((List.perm_insertionSort entryLe l₁).map Prod.fst).symm).nodup hnd


mutual
/-- Lemma: `sortObjectKeys` maps key-permutation-equivalent well-formed values
to the same result. -/
theorem permEq_sortObjectKeys :
    ∀ {a b : JsValue}, PermEq a b → WF a = true → sortObjectKeys a = sortObjectKeys b
  | _, _, .null, _ => rfl
  | _, _, .undef, _ => rfl
  | _, _, .bool _, _ => rfl
  | _, _, .num _, _ => rfl
  | _, _, .str _, _ => rfl
  | _, _, .arr h, hwf => by
    simp only [sortObjectKeys]
    rw [permEqList_sortArr h (by simpa [WF] using hwf)]
  | _, _, @PermEq.obj kvs mid kvs₂ h hp, hwf => by
    simp only [sortObjectKeys]
    have hwf' : (decide ((kvs.map Prod.fst).Nodup) && WFEntries kvs) = true := hwf
    have hnd : (kvs.map Prod.fst).Nodup := by
      have := (Bool.and_eq_true _ _).mp hwf'
      exact of_decide_eq_true this.1
    have hwe : WFEntries kvs = true := ((Bool.and_eq_true _ _).mp hwf').2
    have hstep : sortEntries kvs = sortEntries mid := permEqEntries_sortEntries h hwe
    have hperm : (sortEntries mid).Perm (sortEntries kvs₂) := by
      rw [sortEntries_eq_map, sortEntries_eq_map]
      exact hp.map _
    have hndmid : ((sortEntries mid).map Prod.fst).Nodup := by
      rw [sortEntries_eq_map]
      have : (mid.map (fun p => (p.1, sortObjectKeys p.2))).map Prod.fst = mid.map Prod.fst := by
        simp
      rw [this, ← permEqEntries_keys h]
      exact hnd
    rw [hstep, insertionSort_eq_of_perm hperm hndmid]

theorem permEqList_sortArr :
    ∀ {xs ys : List JsValue}, PermEqList xs ys → WFList xs = true → sortArr xs = sortArr ys
  | _, _, .nil, _ => rfl
  | _, _, @PermEqList.cons x y xs ys h ht, hwf => by
    have hwf' : (WF x && WFList xs) = true := hwf
    have h1 : WF x = true := ((Bool.and_eq_true _ _).mp hwf').1
    have h2 : WFList xs = true := ((Bool.and_eq_true _ _).mp hwf').2
    simp only [sortArr]
    rw [permEq_sortObjectKeys h h1, permEqList_sortArr ht h2]

theorem permEqEntries_sortEntries :
    ∀ {t t' : List (String × JsValue)}, PermEqEntries t t' → WFEntries t = true →
      sortEntries t = sortEntries t'
  | _, _, .nil, _ => rfl
  | _, _, @PermEqEntries.cons k v w t t' h ht, hwf => by
    have hwf' : (WF v && WFEntries t) = true := hwf
    have h1 : WF v = true := ((Bool.and_eq_true _ _).mp hwf').1
    have h2 : WFEntries t = true := ((Bool.and_eq_true _ _).mp hwf').2
    simp only [sortEntries]
    rw [permEq_sortObjectKeys h h1, permEqEntries_sortEntries ht h2]
end

/-- Key-permutation invariance of the canonical codec. -/
theorem permEq_canonicalJson {a b : JsValue} (h : PermEq a b) (hwf : WF a = true) :
    canonicalJson a = canonicalJson b := by
  unfold canonicalJson
  rw [permEq_sortObjectKeys h hwf]

end IrsbSolver

namespace IrsbSolver

/-! ## Claim theorems -/

/-- Claim C6: for every evidence manifest `M` and every timestamp
string `t`, `computeManifestHash` of `M` with `createdAt` replaced by
`t` equals `computeManifestHash M` — changing only `createdAt` never
changes the manifest digest. -/
theorem c6_manifest_hash_createdAt_independent
    (m : EvidenceManifestV0) (t : String) :
    computeManifestHash { m with createdAt := t } = computeManifestHash m := rfl

theorem evaluatePolicy_reasons_eq
    (intent : NormalizedIntent) (config : ResolvedConfig)
    (jsDate : String → Option Int) (now : Int) :
    (evaluatePolicy intent config jsDate now).reasons =
      jobTypeReason intent config ++ expiryReason intent jsDate now ++
      requesterReason intent config ++ inputsSizeReason intent config := rfl

theorem evaluatePolicy_allowed_iff
    (intent : NormalizedIntent) (config : ResolvedConfig)
    (jsDate : String → Option Int) (now : Int) :
    ((evaluatePolicy intent config jsDate now).allowed = true ↔
     (evaluatePolicy intent config jsDate now).reasons = []) := by
  simp [evaluatePolicy, List.length_eq_zero]

/-- Claim C3: `evaluatePolicy` collects the reasons of all failing
checks without short-circuiting, emitted in the fixed order
jobType allowlist, expiry, requester allowlist, inputs size (so for an
intent failing several checks all their reason strings appear, in that
order), and the decision is allowed exactly when no reason was
collected. -/
theorem c3_policy_collects_all_reasons_in_order
    (intent : NormalizedIntent) (config : ResolvedConfig)
    (jsDate : String → Option Int) (now : Int) :
    (evaluatePolicy intent config jsDate now).reasons =
      jobTypeReason intent config ++ expiryReason intent jsDate now ++
      requesterReason intent config ++ inputsSizeReason intent config
    ∧ ((evaluatePolicy intent config jsDate now).allowed = true ↔
       (evaluatePolicy intent config jsDate now).reasons = []) :=
  ⟨evaluatePolicy_reasons_eq intent config jsDate now,
   evaluatePolicy_allowed_iff intent config jsDate now⟩

/-- Claim C7, counterexample: the canonical codec does not fail on a
floating-point number in a value destined for hashing — the float
`1.5` is serialized into the canonical bytes `"1.5"` instead of
raising an `EncodingError` (no error channel exists in
`canonicalJson`). -/
theorem c7_cex_float_is_serialized_not_rejected :
    canonicalJson (.num (.dec 15 1)) = some "1.5" := by decide

/-- Claim C7, amended: the canonical codec never fails.  A
floating-point number anywhere in the value serializes to its decimal
rendering; a non-JSON value (`undefined`) yields JS `undefined` at the
top level and is silently dropped as an object member, exactly as
`JSON.stringify` does. -/
theorem c7_amended_codec_total :
    (∀ n : JsNumber, canonicalJson (.num n) = some (renderJsNumber n))
    ∧ canonicalJson .undef = none
    ∧ (∀ (k : String) (kvs : List (String × JsValue)),
        stringifyObj ((k, .undef) :: kvs) = stringifyObj kvs) := by
  exact ⟨fun n => rfl, rfl, fun k kvs => rfl⟩

end IrsbSolver

namespace IrsbSolver

/-- Claim C8, counterexample: `safeJoin` can return the base directory
itself as an allowed result, not only strict descendants or the
not-allowed sentinel: `safeJoin("/data/runs/r1", ".")` resolves to
`/data/runs/r1` — which is the (already resolved) `runDir` — and the
guard `resolved === base` admits it. -/
theorem c8_cex_safeJoin_returns_base_itself :
    safeJoin "/" "/data/runs/r1" "." = some "/data/runs/r1"
    ∧ resolvePath "/" "/data/runs/r1" = "/data/runs/r1" := by decide

/-- Claim C8, amended: for every path `p`, `safeJoin(runDir, p)` is
either the not-allowed sentinel (`null`), the resolved `runDir`
itself, or a strict descendant of the resolved `runDir` (a proper
extension of `runDir + "/"`); it never returns a path outside
`runDir`. -/
theorem c8_amended_safeJoin_descendant_or_self_or_null
    (cwd baseDir p : String) :
    safeJoin cwd baseDir p = none ∨
    ∃ r, safeJoin cwd baseDir p = some r ∧
      (r = resolvePath cwd baseDir ∨
       (jsStartsWith r (resolvePath cwd baseDir ++ "/") = true ∧
        r ≠ resolvePath cwd baseDir)) := by
  unfold safeJoin
  by_cases hc : ¬(jsStartsWith
      (resolvePath cwd (joinPath (resolvePath cwd baseDir) p))
      (resolvePath cwd baseDir ++ "/") = true)
    ∧ resolvePath cwd (joinPath (resolvePath cwd baseDir) p) ≠ resolvePath cwd baseDir
  · left
    simp only [if_pos hc]
  · right
    refine ⟨resolvePath cwd (joinPath (resolvePath cwd baseDir) p), ?_, ?_⟩
    · simp only [if_neg hc]
    · by_cases he : resolvePath cwd (joinPath (resolvePath cwd baseDir) p) =
          resolvePath cwd baseDir
      · exact Or.inl he
      · have hpre : jsStartsWith
            (resolvePath cwd (joinPath (resolvePath cwd baseDir) p))
            (resolvePath cwd baseDir ++ "/") = true := by
          by_contra hnp
          exact hc ⟨hnp, he⟩
        exact Or.inr ⟨hpre, he⟩

end IrsbSolver

namespace IrsbSolver

/-- Claim C10: when `evidence/manifest.json` is missing, not
well-formed JSON, or fails manifest schema validation,
`validateEvidenceBundle` returns `valid = false` carrying only the
corresponding manifest-level error(s) (`MANIFEST_NOT_FOUND`,
`MANIFEST_PARSE_ERROR`, or `SCHEMA_VALIDATION_ERROR`), and performs no
per-artifact filesystem operation: the operation trace holds only the
manifest existence check and read. -/
theorem c10_validator_manifest_errors_no_artifact_io
    (cwd runDir : String) (fs : BundleFs) :
    (fs.manifest = none →
      validateEvidenceBundle cwd runDir fs =
        (⟨false, [⟨"MANIFEST_NOT_FOUND", "Manifest file not found", none⟩], none⟩,
         [.existsOp (joinPath (joinPath runDir "evidence") "manifest.json")]))
    ∧ (∀ msg, fs.manifest = some (.error msg) →
      validateEvidenceBundle cwd runDir fs =
        (⟨false, [⟨"MANIFEST_PARSE_ERROR", "Failed to parse manifest: " ++ msg, none⟩], none⟩,
         [.existsOp (joinPath (joinPath runDir "evidence") "manifest.json"),
          .readOp (joinPath (joinPath runDir "evidence") "manifest.json")]))
    ∧ (∀ v issues, fs.manifest = some (.ok v) → parseManifestSchema v = .error issues →
      validateEvidenceBundle cwd runDir fs =
        (⟨false,
          issues.map (fun i =>
            ⟨"SCHEMA_VALIDATION_ERROR", String.intercalate "." i.1 ++ ": " ++ i.2, none⟩),
          none⟩,
         [.existsOp (joinPath (joinPath runDir "evidence") "manifest.json"),
          .readOp (joinPath (joinPath runDir "evidence") "manifest.json")])) := by
  refine ⟨?_, ?_, ?_⟩
  · intro h
    unfold validateEvidenceBundle
    rw [h]
  · intro msg h
    unfold validateEvidenceBundle
    rw [h]
  · intro v issues hm hp
    unfold validateEvidenceBundle
    rw [hm]
    simp only [hp]

/-- Witness for C10 at a concrete bundle with a missing manifest. -/
theorem c10_witness :
    validateEvidenceBundle "/" "/run" ⟨none, []⟩ =
      (⟨false, [⟨"MANIFEST_NOT_FOUND", "Manifest file not found", none⟩], none⟩,
       [.existsOp (joinPath (joinPath "/run" "evidence") "manifest.json")]) :=
  (c10_validator_manifest_errors_no_artifact_io "/" "/run" ⟨none, []⟩).1 rfl

end IrsbSolver

namespace IrsbSolver

/-- A concrete `Date` oracle for witnesses: the one timestamp used in
the concrete intents below parses (as it does under JS `new Date`),
everything else is `NaN`. -/
def dvFix : String → Option Int := fun s =>
  if s = "2026-01-01T00:00:00.000Z" then some 1767225600000 else none

/-- The entries of the valid test intent of
`src/types/intent.test.ts` / `src/intent/normalize.test.ts`. -/
def validIntentEntries : List (String × JsValue) :=
  [("intentVersion", .str "0.1.0"),
   ("requester", .str "test@example.com"),
   ("createdAt", .str "2026-01-01T00:00:00.000Z"),
   ("jobType", .str "SAFE_REPORT"),
   ("inputs", .obj [("subject", .str "Test Report"),
                    ("data", .obj [("key", .str "value")])])]

/-- The `IntentV0` those entries parse to. -/
def validIntentParsed : IntentV0 :=
  ⟨"0.1.0", none, "test@example.com", "2026-01-01T00:00:00.000Z", none,
   "SAFE_REPORT", ⟨"Test Report", [("key", .str "value")]⟩, none, none, none⟩

/-- Claim C5, counterexample: intent validation does not reject a
decoded JSON object with a top-level key outside the v0.1.0 schema —
`parseIntent` succeeds on a valid intent carrying the extra key
`extraKey`, silently stripping it (the zod object is non-strict). -/
theorem c5_cex_unknown_key_accepted :
    parseIntent dvFix (.obj (validIntentEntries ++ [("extraKey", .num (.int 1))])) =
      .ok validIntentParsed := by rfl

theorem getProp_append_ne (kvs : List (String × JsValue)) (k : String)
    (v : JsValue) (k' : String) (h : k' ≠ k) :
    getProp (kvs ++ [(k, v)]) k' = getProp kvs k' := by
  induction kvs with
  | nil =>
    have hd : decide (k = k') = false := decide_eq_false (fun he => h he.symm)
    simp only [List.nil_append, getProp, List.find?, hd]
  | cons p t ih =>
    simp only [List.cons_append, getProp, List.find?] at ih ⊢
    cases hd : decide (p.1 = k')
    · simp only [hd]
      exact ih
    · simp only [hd]

/-- Claim C5, amended: a top-level key outside the v0.1.0 intent
schema is silently ignored, not rejected: appending such an entry to a
decoded intent object leaves the outcome of `parseIntent` (success and
parsed value alike) unchanged. -/
theorem c5_amended_unknown_key_stripped
    (jsDate : String → Option Int) (kvs : List (String × JsValue))
    (k : String) (v : JsValue)
    (h : k ∉ ["intentVersion", "intentId", "requester", "createdAt", "expiresAt",
              "jobType", "inputs", "constraints", "acceptanceCriteria", "meta"]) :
    parseIntent jsDate (.obj (kvs ++ [(k, v)])) = parseIntent jsDate (.obj kvs) := by
  simp only [List.mem_cons, List.not_mem_nil, or_false, not_or] at h
  obtain ⟨h₁, h₂, h₃, h₄, h₅, h₆, h₇, h₈, h₉, h₁₀⟩ := h
  simp only [parseIntent]
  rw [getProp_append_ne _ _ _ _ (Ne.symm h₁), getProp_append_ne _ _ _ _ (Ne.symm h₂),
      getProp_append_ne _ _ _ _ (Ne.symm h₃), getProp_append_ne _ _ _ _ (Ne.symm h₄),
      getProp_append_ne _ _ _ _ (Ne.symm h₅), getProp_append_ne _ _ _ _ (Ne.symm h₆),
      getProp_append_ne _ _ _ _ (Ne.symm h₇), getProp_append_ne _ _ _ _ (Ne.symm h₈),
      getProp_append_ne _ _ _ _ (Ne.symm h₉), getProp_append_ne _ _ _ _ (Ne.symm h₁₀)]

/-- Witness for the amended C5 at a concrete intent and extra key. -/
theorem c5_amended_witness :
    parseIntent dvFix (.obj (validIntentEntries ++ [("extraKey", .num (.int 1))])) =
      parseIntent dvFix (.obj validIntentEntries) :=
  c5_amended_unknown_key_stripped dvFix validIntentEntries "extraKey" (.num (.int 1))
    (by decide)

end IrsbSolver

namespace IrsbSolver

theorem digestHex_length (st : Sha256State) : (digestHex st).length = 64 := by
  simp [digestHex, wordHex, String.length]

/-- Every digest of the embedded SHA-256 is 64 hex characters. -/
theorem sha256_length (s : String) : (sha256 s).length = 64 := by
  unfold sha256 sha256Bytes
  exact digestHex_length _

/-- Claim C1, amended: `normalizeIntent` returns, for every accepted
input, a `NormalizedIntent` whose `intentId` is present and equal to
the canonical `computeIntentId` formula when the input carried none;
an input-supplied `intentId` is preserved as-is, without verification
against the computed value. -/
theorem c1_amended_normalize_intent_id
    (jsDate : String → Option Int) (j : JsValue) (i : IntentV0)
    (h : parseIntent jsDate j = .ok i) :
    normalizeIntent jsDate j = .ok (toNormalized i)
    ∧ (toNormalized i).intentId =
        (match i.intentId with
         | some provided => provided
         | none => computeIntentId i) := by
  constructor
  · unfold normalizeIntent
    rw [h]
    rfl
  · unfold toNormalized
    cases i.intentId <;> rfl

/-- Witness for the amended C1 at the concrete test intent carrying
`intentId = "custom-id-123"`. -/
theorem c1_amended_witness :
    normalizeIntent dvFix
        (.obj (("intentId", .str "custom-id-123") :: validIntentEntries)) =
      .ok (toNormalized { validIntentParsed with intentId := some "custom-id-123" })
    ∧ (toNormalized { validIntentParsed with intentId := some "custom-id-123" }).intentId =
        (match ({ validIntentParsed with intentId := some "custom-id-123" } : IntentV0).intentId with
         | some provided => provided
         | none => computeIntentId { validIntentParsed with intentId := some "custom-id-123" }) :=
  c1_amended_normalize_intent_id dvFix
    (.obj (("intentId", .str "custom-id-123") :: validIntentEntries))
    { validIntentParsed with intentId := some "custom-id-123" }
    (by rfl)

/-- Claim C1, counterexample: normalization does not verify a supplied
`intentId` against the canonical formula — `"custom-id-123"` is not
the computed hash (every computed id has 64 characters), yet
`normalizeIntent` succeeds and returns it unchanged. -/
theorem c1_cex_supplied_intent_id_not_verified :
    (normalizeIntent dvFix
        (.obj (("intentId", .str "custom-id-123") :: validIntentEntries))).map
      (fun n => n.intentId) = .ok "custom-id-123"
    ∧ "custom-id-123" ≠
        computeIntentId { validIntentParsed with intentId := some "custom-id-123" } := by
  constructor
  · rfl
  · intro he
    have hlen := congrArg String.length he
    rw [computeIntentId, sha256_length] at hlen
    exact absurd hlen (by decide)

end IrsbSolver

namespace IrsbSolver

/-- Claim C2: for every JSON-compatible mapping and every permutation
of its keys, applied at any nesting level, `canonicalJson` is
unchanged; hence the IDs derived from canonical bytes — `intentId`
(`computeIntentId`), `runId` (`computeRunId`), and any SHA-256 over
canonical bytes such as the manifest digest — are unchanged under key
reordering. -/
theorem c2_canonical_json_key_permutation_invariant :
    (∀ a b : JsValue, WF a = true → PermEq a b →
      canonicalJson a = canonicalJson b)
    ∧ (∀ (i : IntentV0) (data' : List (String × JsValue))
          (constraints' : Option (List (String × JsValue))),
        WF (.obj i.inputs.data) = true →
        PermEq (.obj i.inputs.data) (.obj data') →
        WF (.obj (i.constraints.getD [])) = true →
        PermEq (.obj (i.constraints.getD [])) (.obj (constraints'.getD [])) →
        computeIntentId
            { i with inputs := ⟨i.inputs.subject, data'⟩, constraints := constraints' } =
          computeIntentId i)
    ∧ (∀ (n : NormalizedIntent) (data' : List (String × JsValue)),
        WF (.obj n.inputs.data) = true →
        PermEq (.obj n.inputs.data) (.obj data') →
        computeRunId { n with inputs := ⟨n.inputs.subject, data'⟩ } = computeRunId n)
    ∧ (∀ j j' : JsValue, WF j = true → PermEq j j' →
        sha256 (canonicalJsonD j) = sha256 (canonicalJsonD j')) := by
  have hmain : ∀ a b : JsValue, WF a = true → PermEq a b →
      canonicalJson a = canonicalJson b := fun a b hwf h => permEq_canonicalJson h hwf
  have hmainD : ∀ a b : JsValue, WF a = true → PermEq a b →
      canonicalJsonD a = canonicalJsonD b := fun a b hwf h => by
    unfold canonicalJsonD
    rw [hmain a b hwf h]
  have hinputs : ∀ (subject : String) (data data' : List (String × JsValue)),
      WF (.obj data) = true → PermEq (.obj data) (.obj data') →
      canonicalJsonD (inputsJson ⟨subject, data⟩) = canonicalJsonD (inputsJson ⟨subject, data'⟩) := by
    intro subject data data' hwf h
    apply hmainD
    · simp only [inputsJson, WF, WFEntries]
      simp
      have hpair := (Bool.and_eq_true _ _).mp hwf
      exact ⟨of_decide_eq_true hpair.1, hpair.2⟩
    · exact .obj (.cons (permEq_refl _) (.cons h .nil)) (List.Perm.refl _)
  refine ⟨hmain, ?_, ?_, ?_⟩
  · intro i data' constraints' hwf h hwfc hc
    unfold computeIntentId
    congr 1
    simp only [String.intercalate]
    have h1 : canonicalJsonD (inputsJson ⟨i.inputs.subject, data'⟩) =
        canonicalJsonD (inputsJson i.inputs) := by
      have := hinputs i.inputs.subject i.inputs.data data' hwf h
      rw [← this]
    have h2 : canonicalJsonD (.obj (constraints'.getD [])) =
        canonicalJsonD (.obj (i.constraints.getD [])) := (hmainD _ _ hwfc hc).symm
    rw [h1, h2]
  · intro n data' hwf h
    unfold computeRunId
    congr 1
    have h1 : canonicalJsonD (inputsJson ⟨n.inputs.subject, data'⟩) =
        canonicalJsonD (inputsJson n.inputs) := by
      have := hinputs n.inputs.subject n.inputs.data data' hwf h
      rw [← this]
    rw [h1]
  · intro j j' hwf h
    rw [hmainD j j' hwf h]

/-- Witness for C2 at the two-key object of the repository's
`canonicalJson` test (`{b:1,a:2}` against `{a:2,b:1}`). -/
theorem c2_witness :
    canonicalJson (.obj [("b", .num (.int 1)), ("a", .num (.int 2))]) =
      canonicalJson (.obj [("a", .num (.int 2)), ("b", .num (.int 1))]) :=
  c2_canonical_json_key_permutation_invariant.1
    (.obj [("b", .num (.int 1)), ("a", .num (.int 2))])
    (.obj [("a", .num (.int 2)), ("b", .num (.int 1))])
    (by decide)
    (.obj (permEqEntries_refl _) (List.Perm.swap _ _ _))

end IrsbSolver

namespace IrsbSolver

theorem compareNatList_eq_iff :
    ∀ {a b : List Nat}, compareNatList a b = .eq ↔ a = b := by
  intro a
  induction a with
  | nil => intro b; cases b <;> simp [compareNatList]
  | cons x xs ih =>
    intro b
    cases b with
    | nil => simp [compareNatList]
    | cons y ys =>
      simp only [compareNatList]
      by_cases hxy : x < y
      · rw [if_pos hxy]
        constructor
        · intro he; exact absurd he (by decide)
        · intro he
          injection he with he1 he2
          exact absurd he1 (by omega)
      · by_cases hyx : y < x
        · rw [if_neg hxy, if_pos hyx]
          constructor
          · intro he; exact absurd he (by decide)
          · intro he
            injection he with he1 he2
            exact absurd he1 (by omega)
        · rw [if_neg hxy, if_neg hyx, ih]
          have hx : x = y := by omega
          subst hx
          simp

theorem compareNatList_lt_trans :
    ∀ {a b c : List Nat}, compareNatList a b = .lt → compareNatList b c = .lt →
      compareNatList a c = .lt := by
  intro a
  induction a with
  | nil =>
    intro b c hab hbc
    cases b with
    | nil => simp [compareNatList] at hab
    | cons y ys =>
      cases c with
      | nil => simp [compareNatList] at hbc
      | cons z zs => simp [compareNatList]
  | cons x xs ih =>
    intro b c hab hbc
    cases b with
    | nil => simp [compareNatList] at hab
    | cons y ys =>
      cases c with
      | nil => simp [compareNatList] at hbc
      | cons z zs =>
        simp only [compareNatList] at hab hbc ⊢
        by_cases hxy : x < y
        · by_cases hyz : y < z
          · rw [if_pos (by omega : x < z)]
          · by_cases hzy : z < y
            · rw [if_neg hyz, if_pos hzy] at hbc
              exact absurd hbc (by simp)
            · rw [if_pos (by omega : x < z)]
        · by_cases hyx : y < x
          · rw [if_neg hxy, if_pos hyx] at hab
            exact absurd hab (by simp)
          · by_cases hyz : y < z
            · rw [if_pos (by omega : x < z)]
            · by_cases hzy : z < y
              · rw [if_neg hyz, if_pos hzy] at hbc
                exact absurd hbc (by simp)
              · rw [if_neg hxy, if_neg hyx] at hab
                rw [if_neg hyz, if_neg hzy] at hbc
                rw [if_neg (by omega : ¬ x < z), if_neg (by omega : ¬ z < x)]
                exact ih hab hbc

theorem compareNatList_swap :
    ∀ (a b : List Nat), compareNatList b a = (compareNatList a b).swap := by
  intro a
  induction a with
  | nil => intro b; cases b <;> simp [compareNatList, Ordering.swap]
  | cons x xs ih =>
    intro b
    cases b with
    | nil => simp [compareNatList, Ordering.swap]
    | cons y ys =>
      simp only [compareNatList]
      by_cases hxy : x < y
      · simp only [if_neg (by omega : ¬ y < x), if_pos hxy]
        rfl
      · by_cases hyx : y < x
        · simp only [if_pos hyx, if_neg hxy]
          rfl
        · simp only [if_neg hyx, if_neg hxy]
          exact ih ys

theorem ordering_not_gt_iff {o : Ordering} : o ≠ .gt ↔ o = .lt ∨ o = .eq := by
  cases o <;> simp

/-- Characterisation of `localeCompare a b ≤ 0` by the two collation passes. -/
theorem localeCompare_le_iff {a b : String} :
    localeCompare a b ≤ 0 ↔
      (compareNatList (a.data.map primKey) (b.data.map primKey) = .lt ∨
       (a.data.map primKey = b.data.map primKey ∧
        compareNatList (a.data.map caseKey) (b.data.map caseKey) ≠ .gt)) := by
  unfold localeCompare
  rcases hp : compareNatList (a.data.map primKey) (b.data.map primKey) with _ | _ | _
  · simp [hp]
  · rcases ht : compareNatList (a.data.map caseKey) (b.data.map caseKey) with _ | _ | _ <;>
      simp [hp, ht, compareNatList_eq_iff.mp hp]
  · simp only [hp]
    constructor
    · intro h
      exact absurd h (by decide)
    · rintro (h | ⟨he, -⟩)
      · exact absurd h (by decide)
      · have hcmp := compareNatList_eq_iff.mpr he
        rw [hp] at hcmp
        exact absurd hcmp (by decide)

theorem artifactLe_total (a b : ArtifactEntry) : artifactLe a b ∨ artifactLe b a := by
  unfold artifactLe
  by_cases h : localeCompare a.path b.path ≤ 0
  · exact Or.inl h
  · right
    rw [localeCompare_le_iff] at h ⊢
    push_neg at h
    obtain ⟨h1, h2⟩ := h
    rcases hp : compareNatList (a.path.data.map primKey) (b.path.data.map primKey) with _ | _ | _
    · exact absurd hp h1
    · right
      refine ⟨(compareNatList_eq_iff.mp hp).symm, ?_⟩
      have hgt := h2 (compareNatList_eq_iff.mp hp)
      rw [compareNatList_swap (a.path.data.map caseKey) (b.path.data.map caseKey), hgt]
      decide
    · left
      rw [compareNatList_swap (a.path.data.map primKey) (b.path.data.map primKey), hp]
      rfl

theorem artifactLe_trans {a b c : ArtifactEntry}
    (h₁ : artifactLe a b) (h₂ : artifactLe b c) : artifactLe a c := by
  unfold artifactLe at *
  rw [localeCompare_le_iff] at h₁ h₂ ⊢
  rcases h₁ with h₁ | ⟨h₁e, h₁t⟩
  · rcases h₂ with h₂ | ⟨h₂e, h₂t⟩
    · exact Or.inl (compareNatList_lt_trans h₁ h₂)
    · left
      rw [← h₂e]
      exact h₁
  · rcases h₂ with h₂ | ⟨h₂e, h₂t⟩
    · left
      rw [h₁e]
      exact h₂
    · right
      refine ⟨h₁e.trans h₂e, ?_⟩
      rw [ordering_not_gt_iff] at h₁t h₂t ⊢
      rcases h₁t with h₁t | h₁t
      · rcases h₂t with h₂t | h₂t
        · exact Or.inl (compareNatList_lt_trans h₁t h₂t)
        · left
          rw [← compareNatList_eq_iff.mp h₂t]
          exact h₁t
      · rcases h₂t with h₂t | h₂t
        · left
          rw [compareNatList_eq_iff.mp h₁t]
          exact h₂t
        · right
          rw [compareNatList_eq_iff.mp h₁t]
          exact h₂t

instance : IsTotal ArtifactEntry artifactLe := ⟨artifactLe_total⟩
instance : IsTrans ArtifactEntry artifactLe := ⟨fun _ _ _ => artifactLe_trans⟩

end IrsbSolver

namespace IrsbSolver

theorem char_lt_iff_toNat {a b : Char} : a < b ↔ a.toNat < b.toNat := by
  rw [Char.lt_def]
  exact ⟨fun h => h, fun h => h⟩

theorem char_le_iff_toNat {a b : Char} : a ≤ b ↔ a.toNat ≤ b.toNat := by
  rw [Char.le_def]
  exact ⟨fun h => h, fun h => h⟩

/-- A character that is not an ASCII capital has itself as lowercase. -/
theorem toLower_eq_self {c : Char} (h : ¬(65 ≤ c.toNat ∧ c.toNat ≤ 90)) :
    c.toLower = c := by
  unfold Char.toLower
  rw [if_neg (by omega)]

theorem primKey_eq_toNat {c : Char} (h : ¬(65 ≤ c.toNat ∧ c.toNat ≤ 90)) :
    primKey c = c.toNat := by
  unfold primKey
  rw [toLower_eq_self h]

/-- Lemma: `List.lt` on characters forces strict `gt` of the code-point
comparison in the other direction. -/
theorem listLt_cmp_gt :
    ∀ {l₂ l₁ : List Char}, List.lt l₂ l₁ →
      compareNatList (l₁.map Char.toNat) (l₂.map Char.toNat) = .gt := by
  intro l₂ l₁ h
  induction h with
  | nil b bs => rfl
  | head as bs hab =>
    simp only [List.map_cons, compareNatList]
    have hlt := char_lt_iff_toNat.mp hab
    rw [if_neg (by omega), if_pos hlt]
  | tail hab hba _ ih =>
    simp only [List.map_cons, compareNatList]
    have h1 : ¬ _ < _ := fun hc => hba (char_lt_iff_toNat.mpr hc)
    have h2 : ¬ _ < _ := fun hc => hab (char_lt_iff_toNat.mpr hc)
    rw [if_neg h1, if_neg h2]
    exact ih

/-- The converse: strict `gt` of the code-point comparison gives
`List.lt` in the other direction. -/
theorem cmp_gt_listLt :
    ∀ {l₁ l₂ : List Char},
      compareNatList (l₁.map Char.toNat) (l₂.map Char.toNat) = .gt → List.lt l₂ l₁ := by
  intro l₁
  induction l₁ with
  | nil =>
    intro l₂ h
    cases l₂ <;> simp [compareNatList] at h
  | cons x xs ih =>
    intro l₂ h
    cases l₂ with
    | nil => exact List.lt.nil x xs
    | cons y ys =>
      simp only [List.map_cons, compareNatList] at h
      by_cases hxy : x.toNat < y.toNat
      · rw [if_pos hxy] at h
        exact absurd h (by decide)
      · by_cases hyx : y.toNat < x.toNat
        · exact List.lt.head ys xs (char_lt_iff_toNat.mpr hyx)
        · rw [if_neg hxy, if_neg hyx] at h
          exact List.lt.tail (fun hc => hyx (char_lt_iff_toNat.mp hc))
            (fun hc => hxy (char_lt_iff_toNat.mp hc)) (ih h)

/-- Lemma: `String <` (the lexicographic order) follows from a strict `gt` of the
code-point comparison in the other direction. -/
theorem strlt_of_cmp_gt {a b : String}
    (h : compareNatList (b.data.map Char.toNat) (a.data.map Char.toNat) = .gt) :
    a < b := by
  rw [String.lt_iff_toList_lt]
  show List.Lex (fun x y => x < y) a.data b.data
  exact (List.lt_iff_lex_lt _ _).mp (cmp_gt_listLt h)

/-- Code-point comparison not `gt` means string `≤`. -/
theorem strle_of_cmp_not_gt {a b : String}
    (h : compareNatList (a.data.map Char.toNat) (b.data.map Char.toNat) ≠ .gt) :
    a ≤ b := by
  intro hlt
  apply h
  apply listLt_cmp_gt
  have hx : List.Lex (fun x y => x < y) b.data a.data := by
    rw [String.lt_iff_toList_lt] at hlt
    exact hlt
  exact (List.lt_iff_lex_lt _ _).mpr hx

/-- On strings without ASCII capitals the modelled `localeCompare`
orders like the code points. -/
theorem localeCompare_le_implies_le {a b : String}
    (ha : ∀ c ∈ a.data, ¬(65 ≤ c.toNat ∧ c.toNat ≤ 90))
    (hb : ∀ c ∈ b.data, ¬(65 ≤ c.toNat ∧ c.toNat ≤ 90))
    (h : localeCompare a b ≤ 0) : a ≤ b := by
  have hpa : a.data.map primKey = a.data.map Char.toNat :=
    List.map_congr_left (fun c hc => primKey_eq_toNat (ha c hc))
  have hpb : b.data.map primKey = b.data.map Char.toNat :=
    List.map_congr_left (fun c hc => primKey_eq_toNat (hb c hc))
  rw [localeCompare_le_iff, hpa, hpb] at h
  apply strle_of_cmp_not_gt
  rcases h with h | ⟨he, -⟩
  · rw [h]
    decide
  · rw [compareNatList_eq_iff.mpr he]
    decide

/-- Claim C9, counterexample: the artifacts array of a built evidence
manifest is not sorted in lexicographic (code-point) path order: for a
run with files `B.txt` and `a.txt`, `scanArtifacts` orders
`artifacts/a.txt` before `artifacts/B.txt` (locale-aware comparison),
while lexicographically `"artifacts/B.txt" < "artifacts/a.txt"`. -/
theorem c9_cex_artifacts_not_lexicographic :
    (scanArtifacts "/" "/data/runs/r1"
        [("B.txt", ⟨1, "hashB"⟩), ("a.txt", ⟨1, "hashA"⟩)]).map
      (fun e => e.path) = ["artifacts/a.txt", "artifacts/B.txt"]
    ∧ ¬ List.Sorted (fun p q : String => p ≤ q)
        ["artifacts/a.txt", "artifacts/B.txt"] := by
  constructor
  · rfl
  · intro hs
    have hle : ("artifacts/a.txt" : String) ≤ "artifacts/B.txt" :=
      (List.sorted_cons.mp hs).1 _ (by simp)
    have hlt : ("artifacts/B.txt" : String) < "artifacts/a.txt" :=
      strlt_of_cmp_gt (by decide)
    exact hle hlt

/-- Claim C9, amended: the artifacts array produced by `scanArtifacts`
(and hence the `artifacts` of every manifest `createEvidenceBundle`
assembles) is sorted ascending by path for the locale-aware comparator
the code uses (`a.path.localeCompare(b.path)`); when no path carries
an ASCII capital letter — as with the reference runner's
`report.json` / `report.md` — this coincides with lexicographic
(code-point) order. -/
theorem c9_amended_artifacts_sorted
    (cwd runDir nowIso : String) (params : CreateEvidenceBundleParams)
    (files : List (String × FileStat)) :
    List.Sorted artifactLe (scanArtifacts cwd runDir files)
    ∧ (buildManifest cwd nowIso params files).artifacts =
        scanArtifacts cwd params.runDir files
    ∧ ((∀ e ∈ scanArtifacts cwd runDir files,
          ∀ c ∈ e.path.data, ¬(65 ≤ c.toNat ∧ c.toNat ≤ 90)) →
        List.Sorted (fun a b : ArtifactEntry => a.path ≤ b.path)
          (scanArtifacts cwd runDir files)) := by
  refine ⟨List.sorted_insertionSort artifactLe _, rfl, ?_⟩
  intro hlower
  have hs : List.Sorted artifactLe (scanArtifacts cwd runDir files) :=
    List.sorted_insertionSort artifactLe _
  exact List.Pairwise.imp_of_mem
    (fun {a b} ha hb hab =>
      localeCompare_le_implies_le (hlower a ha) (hlower b hb) hab)
    hs

/-- Witness for the amended C9 at a concrete lowercase file listing. -/
theorem c9_amended_witness :
    List.Sorted (fun a b : ArtifactEntry => a.path ≤ b.path)
      (scanArtifacts "/" "/data/runs/r1"
        [("report.md", ⟨2, "h1"⟩), ("report.json", ⟨3, "h2"⟩)]) :=
  (c9_amended_artifacts_sorted "/" "/data/runs/r1" "t"
      ⟨"/data/runs/r1", "i", "r", "SAFE_REPORT", ⟨true, []⟩, ⟨"SUCCESS", none⟩, none⟩
      [("report.md", ⟨2, "h1"⟩), ("report.json", ⟨3, "h2"⟩)]).2.2
    (by decide)

end IrsbSolver

namespace IrsbSolver

/-! ## Length accounting for the size guard (claim C4) -/

theorem utf16Len_append (a b : String) :
    utf16Len (a ++ b) = utf16Len a + utf16Len b := by
  unfold utf16Len
  rw [String.data_append, List.map_append, List.sum_append]

theorem utf8Len_append (a b : String) :
    utf8Len (a ++ b) = utf8Len a + utf8Len b := by
  unfold utf8Len
  rw [String.data_append, List.map_append, List.sum_append]

theorem flatMap_escChar_id {l : List Char} (h : ∀ c ∈ l, escChar c = [c]) :
    l.flatMap escChar = l := by
  induction l with
  | nil => rfl
  | cons c t ih =>
    rw [List.flatMap_cons, h c (List.mem_cons_self c t),
      ih (fun x hx => h x (List.mem_cons_of_mem c hx))]
    rfl

theorem quoteStr_utf16 {s : String} (h : ∀ c ∈ s.data, escChar c = [c]) :
    utf16Len (quoteStr s) = 2 + utf16Len s := by
  unfold quoteStr
  rw [utf16Len_append, utf16Len_append, flatMap_escChar_id h]
  have : utf16Len (String.mk s.data) = utf16Len s := rfl
  rw [this]
  have h1 : utf16Len "\"" = 1 := rfl
  rw [h1]
  omega

theorem quoteStr_utf8 {s : String} (h : ∀ c ∈ s.data, escChar c = [c]) :
    utf8Len (quoteStr s) = 2 + utf8Len s := by
  unfold quoteStr
  rw [utf8Len_append, utf8Len_append, flatMap_escChar_id h]
  have : utf8Len (String.mk s.data) = utf8Len s := rfl
  rw [this]
  have h1 : utf8Len "\"" = 1 := rfl
  rw [h1]
  omega

/-- The canonical bytes of `SAFE_REPORT` inputs
`{subject: "A", data: {k: s}}`. -/
theorem c4_canonical_shape (s : String) :
    canonicalJsonD (inputsJson ⟨"A", [("k", .str s)]⟩) =
      "\x7b" ++ ("\"data\":" ++ ("\x7b" ++ ("\"k\":" ++ quoteStr s) ++ "\x7d") ++ "," ++
        ("\"subject\":" ++ quoteStr "A")) ++ "\x7d" := by
  unfold canonicalJsonD canonicalJson inputsJson
  simp only [sortObjectKeys, sortArr, sortEntries]
  rw [show List.insertionSort entryLe [("k", JsValue.str s)] = [("k", JsValue.str s)] from rfl]
  simp only [List.insertionSort, List.orderedInsert]
  rw [if_neg (show ¬ entryLe ("subject", JsValue.str "A")
      ("data", JsValue.obj [("k", JsValue.str s)]) from
    (show ¬ (jsLe "subject" "data" = true) by decide))]
  simp only [stringify, stringifyObj, stringifyArr, String.intercalate]
  rfl

theorem c4_canonical_utf16 {s : String} (h : ∀ c ∈ s.data, escChar c = [c]) :
    utf16Len (canonicalJsonD (inputsJson ⟨"A", [("k", .str s)]⟩)) = 31 + utf16Len s := by
  rw [c4_canonical_shape]
  simp only [utf16Len_append, quoteStr_utf16 h]
  rw [show utf16Len "\x7b" = 1 from rfl, show utf16Len "\x7d" = 1 from rfl,
      show utf16Len "\"data\":" = 7 from rfl, show utf16Len "\"k\":" = 4 from rfl,
      show utf16Len "," = 1 from rfl, show utf16Len "\"subject\":" = 10 from rfl,
      show utf16Len (quoteStr "A") = 3 from rfl]
  omega

theorem c4_canonical_utf8 {s : String} (h : ∀ c ∈ s.data, escChar c = [c]) :
    utf8Len (canonicalJsonD (inputsJson ⟨"A", [("k", .str s)]⟩)) = 31 + utf8Len s := by
  rw [c4_canonical_shape]
  simp only [utf8Len_append, quoteStr_utf8 h]
  rw [show utf8Len "\x7b" = 1 from rfl, show utf8Len "\x7d" = 1 from rfl,
      show utf8Len "\"data\":" = 7 from rfl, show utf8Len "\"k\":" = 4 from rfl,
      show utf8Len "," = 1 from rfl, show utf8Len "\"subject\":" = 10 from rfl,
      show utf8Len (quoteStr "A") = 3 from rfl]
  omega

/-- The payload of the C4 counterexample: `1048544` copies of `A` followed by one `é`: its canonical JSON
string value occupies `1048545` UTF-16 code units but `1048546` UTF-8
bytes. -/
def c4BigString : String := String.mk (List.replicate 1048544 'A' ++ ['é'])

theorem c4BigString_esc : ∀ c ∈ c4BigString.data, escChar c = [c] := by
  intro c hc
  rcases List.mem_append.mp hc with hr | he
  · rw [(List.mem_replicate.mp hr).2]
    decide
  · rw [List.mem_singleton.mp he]
    decide

theorem c4BigString_utf16 : utf16Len c4BigString = 1048545 := by
  unfold c4BigString utf16Len
  show ((List.replicate 1048544 'A' ++ ['é']).map utf16Width).sum = 1048545
  rw [List.map_append, List.sum_append, List.map_replicate, List.sum_replicate]
  rw [show utf16Width 'A' = 1 from rfl]
  simp
  rw [show utf16Width 'é' = 1 from rfl]

theorem c4BigString_utf8 : utf8Len c4BigString = 1048546 := by
  unfold c4BigString utf8Len
  show ((List.replicate 1048544 'A' ++ ['é']).map utf8Width).sum = 1048546
  rw [List.map_append, List.sum_append, List.map_replicate, List.sum_replicate]
  rw [show utf8Width 'A' = 1 from rfl]
  simp
  rw [show utf8Width 'é' = 2 from rfl]

/-- The intent and configuration of the C4 counterexample: a 1 MB cap
and inputs whose canonical form is exactly the cap in UTF-16 code
units but `cap + 1` in UTF-8 bytes. -/
def c4Intent : NormalizedIntent :=
  { intentVersion := "0.1.0", intentId := "intent-c4", requester := "r@example.com",
    createdAt := "2026-01-01T00:00:00.000Z", expiresAt := none,
    jobType := "SAFE_REPORT", inputs := ⟨"A", [("k", .str c4BigString)]⟩,
    constraints := none, acceptanceCriteria := none, meta := none }

def c4Config : ResolvedConfig := ⟨["SAFE_REPORT"], 1, none⟩

/-- Claim C4, counterexample: an intent whose canonical inputs occupy
`POLICY_MAX_ARTIFACT_MB * 2^20 + 1` **bytes** is accepted by the
policy with no reasons — the source compares the JS string length
(UTF-16 code units, here exactly the cap) rather than the byte length
of the canonical serialization. -/
theorem c4_cex_byte_cap_exceeded_but_accepted :
    evaluatePolicy c4Intent c4Config (fun _ => none) 0 = ⟨true, []⟩
    ∧ utf8Len (canonicalJsonD (inputsJson c4Intent.inputs)) =
        c4Config.POLICY_MAX_ARTIFACT_MB * 1024 * 1024 + 1 := by
  have h16 : utf16Len (canonicalJsonD (inputsJson c4Intent.inputs)) = 1048576 := by
    show utf16Len (canonicalJsonD (inputsJson ⟨"A", [("k", .str c4BigString)]⟩)) = 1048576
    rw [c4_canonical_utf16 c4BigString_esc, c4BigString_utf16]
  have h8 : utf8Len (canonicalJsonD (inputsJson c4Intent.inputs)) = 1048577 := by
    show utf8Len (canonicalJsonD (inputsJson ⟨"A", [("k", .str c4BigString)]⟩)) = 1048577
    rw [c4_canonical_utf8 c4BigString_esc, c4BigString_utf8]
  constructor
  · unfold evaluatePolicy
    have h1 : jobTypeReason c4Intent c4Config = [] := by
      unfold jobTypeReason
      rw [if_neg (by decide)]
    have h2 : expiryReason c4Intent (fun _ => none) 0 = [] := rfl
    have h3 : requesterReason c4Intent c4Config = [] := rfl
    have h4 : inputsSizeReason c4Intent c4Config = [] := by
      unfold inputsSizeReason
      rw [if_neg (by rw [h16]; show ¬ (1048576 > 1 * 1024 * 1024); omega)]
    rw [h1, h2, h3, h4]
    rfl
  · rw [h8]
    rfl

end IrsbSolver

namespace IrsbSolver

theorem ne_inputs_jobType (s t : String) : "inputs size " ++ s ≠ "jobType '" ++ t := by
  intro h
  have hd := congrArg String.data h
  rw [String.data_append, String.data_append] at hd
  rw [show ("inputs size " : String).data =
      'i':: 'n':: 'p':: 'u':: 't':: 's':: ' ':: 's':: 'i':: 'z':: 'e':: ' '::[] from rfl] at hd
  rw [show ("jobType '" : String).data =
      'j':: 'o':: 'b':: 'T':: 'y':: 'p':: 'e':: ' '::(Char.ofNat 39)::[] from rfl] at hd
  simp at hd

theorem ne_inputs_expired (s t : String) : "inputs size " ++ s ≠ "intent expired at " ++ t := by
  intro h
  have hd := congrArg String.data h
  rw [String.data_append, String.data_append] at hd
  rw [show ("inputs size " : String).data =
      'i':: 'n':: 'p':: 'u':: 't':: 's':: ' ':: 's':: 'i':: 'z':: 'e':: ' '::[] from rfl] at hd
  rw [show ("intent expired at " : String).data =
      'i':: 'n':: 't':: 'e':: 'n':: 't':: ' ':: 'e':: 'x':: 'p':: 'i':: 'r':: 'e':: 'd':: ' ':: 'a':: 't':: ' '::[] from rfl] at hd
  simp at hd

theorem ne_inputs_requester (s t : String) : "inputs size " ++ s ≠ "requester '" ++ t := by
  intro h
  have hd := congrArg String.data h
  rw [String.data_append, String.data_append] at hd
  rw [show ("inputs size " : String).data =
      'i':: 'n':: 'p':: 'u':: 't':: 's':: ' ':: 's':: 'i':: 'z':: 'e':: ' '::[] from rfl] at hd
  rw [show ("requester '" : String).data =
      'r':: 'e':: 'q':: 'u':: 'e':: 's':: 't':: 'e':: 'r':: ' '::(Char.ofNat 39)::[] from rfl] at hd
  simp at hd

theorem mem_jobTypeReason {intent : NormalizedIntent} {config : ResolvedConfig} {x : String}
    (hx : x ∈ jobTypeReason intent config) : ∃ t, x = "jobType '" ++ t := by
  revert hx
  unfold jobTypeReason
  split
  · intro hx
    rw [List.mem_singleton] at hx
    refine ⟨intent.jobType ++ ("' not in allowlist [" ++
      (String.intercalate ", " config.POLICY_JOBTYPE_ALLOWLIST ++ "]")), ?_⟩
    rw [hx]
    simp [String.append_assoc]
  · intro hx
    exact absurd hx (List.not_mem_nil _)

theorem mem_expiryReason {intent : NormalizedIntent} {jsDate : String → Option Int}
    {now : Int} {x : String} (hx : x ∈ expiryReason intent jsDate now) :
    ∃ d, x = "intent expired at " ++ d := by
  unfold expiryReason at hx
  rcases he : intent.expiresAt with _ | d
  · rw [he] at hx
    exact absurd hx (List.not_mem_nil _)
  · rw [he] at hx
    replace hx : x ∈ (if d = "" then []
        else match jsDate d with
          | none => []
          | some t => if t < now then ["intent expired at " ++ d] else []) := hx
    by_cases hde : d = ""
    · rw [if_pos hde] at hx
      exact absurd hx (List.not_mem_nil _)
    · rw [if_neg hde] at hx
      rcases hj : jsDate d with _ | t
      · rw [hj] at hx
        exact absurd hx (List.not_mem_nil _)
      · rw [hj] at hx
        replace hx : x ∈ (if t < now then ["intent expired at " ++ d] else []) := hx
        by_cases hlt : t < now
        · rw [if_pos hlt] at hx
          rw [List.mem_singleton] at hx
          exact ⟨d, hx⟩
        · rw [if_neg hlt] at hx
          exact absurd hx (List.not_mem_nil _)

theorem mem_requesterReason {intent : NormalizedIntent} {config : ResolvedConfig} {x : String}
    (hx : x ∈ requesterReason intent config) : ∃ t, x = "requester '" ++ t := by
  unfold requesterReason at hx
  rcases hr : config.POLICY_REQUESTER_ALLOWLIST with _ | allow
  · rw [hr] at hx
    exact absurd hx (List.not_mem_nil _)
  · rw [hr] at hx
    replace hx : x ∈ (if !(allow.contains intent.requester) then
        ["requester '" ++ intent.requester ++ "' not in allowlist"] else []) := hx
    by_cases hc : !(allow.contains intent.requester)
    · rw [if_pos hc] at hx
      rw [List.mem_singleton] at hx
      refine ⟨intent.requester ++ "' not in allowlist", ?_⟩
      rw [hx]
      simp [String.append_assoc]
    · rw [if_neg hc] at hx
      exact absurd hx (List.not_mem_nil _)

/-- Claim C4, amended: the size guard measures the canonical
serialization of the inputs in UTF-16 code units (the JS string
length), not bytes: the size reason appears among the policy's reasons
exactly when that code-unit length strictly exceeds
`POLICY_MAX_ARTIFACT_MB * 2^20`, so the boundary value is accepted and
`cap + 1` code units are rejected; for ASCII-only canonical forms the
code-unit count coincides with the byte count. -/
theorem c4_amended_size_guard_utf16_boundary
    (intent : NormalizedIntent) (config : ResolvedConfig)
    (jsDate : String → Option Int) (now : Int) :
    (inputsSizeMsg intent config ∈ (evaluatePolicy intent config jsDate now).reasons ↔
      utf16Len (canonicalJsonD (inputsJson intent.inputs)) >
        config.POLICY_MAX_ARTIFACT_MB * 1024 * 1024)
    ∧ ((evaluatePolicy intent config jsDate now).allowed = true →
        utf16Len (canonicalJsonD (inputsJson intent.inputs)) ≤
          config.POLICY_MAX_ARTIFACT_MB * 1024 * 1024) := by
  have hmem : inputsSizeMsg intent config ∈ (evaluatePolicy intent config jsDate now).reasons ↔
      inputsSizeMsg intent config ∈ inputsSizeReason intent config := by
    show inputsSizeMsg intent config ∈
        jobTypeReason intent config ++ expiryReason intent jsDate now ++
        requesterReason intent config ++ inputsSizeReason intent config ↔ _
    simp only [List.mem_append]
    constructor
    · rintro (((h | h) | h) | h)
      · exfalso
        obtain ⟨t, ht⟩ := mem_jobTypeReason h
        exact ne_inputs_jobType _ _ (by unfold inputsSizeMsg at ht; exact ht)
      · exfalso
        obtain ⟨t, ht⟩ := mem_expiryReason h
        exact ne_inputs_expired _ _ (by unfold inputsSizeMsg at ht; exact ht)
      · exfalso
        obtain ⟨t, ht⟩ := mem_requesterReason h
        exact ne_inputs_requester _ _ (by unfold inputsSizeMsg at ht; exact ht)
      · exact h
    · intro h
      exact Or.inr h
  constructor
  · rw [hmem]
    show inputsSizeMsg intent config ∈
        (if utf16Len (canonicalJsonD (inputsJson intent.inputs)) >
            config.POLICY_MAX_ARTIFACT_MB * 1024 * 1024
         then [inputsSizeMsg intent config] else []) ↔ _
    by_cases hgt : utf16Len (canonicalJsonD (inputsJson intent.inputs)) >
        config.POLICY_MAX_ARTIFACT_MB * 1024 * 1024
    · rw [if_pos hgt]
      simp [hgt]
    · rw [if_neg hgt]
      simp [hgt]
  · intro hall
    by_contra hgt
    push_neg at hgt
    have hne : inputsSizeReason intent config ≠ [] := by
      show (if utf16Len (canonicalJsonD (inputsJson intent.inputs)) >
          config.POLICY_MAX_ARTIFACT_MB * 1024 * 1024
        then [inputsSizeMsg intent config] else []) ≠ []
      rw [if_pos hgt]
      simp
    have hempty : (evaluatePolicy intent config jsDate now).reasons = [] :=
      (evaluatePolicy_allowed_iff intent config jsDate now).mp hall
    have hcat := evaluatePolicy_reasons_eq intent config jsDate now
    rw [hempty] at hcat
    exact hne (List.append_eq_nil.mp hcat.symm).2

end IrsbSolver

namespace IrsbSolver

/-- Witness for the amended C4: a small accepted intent's canonical
inputs are within the configured cap. -/
theorem c4_amended_witness :
    utf16Len (canonicalJsonD (inputsJson
        (⟨"0.1.0", "i", "r@example.com", "2026-01-01T00:00:00.000Z", none,
          "SAFE_REPORT", ⟨"Hi", [("k", .str "v")]⟩, none, none, none⟩ :
          NormalizedIntent).inputs)) ≤
      (⟨["SAFE_REPORT"], 5, none⟩ : ResolvedConfig).POLICY_MAX_ARTIFACT_MB * 1024 * 1024 :=
  (c4_amended_size_guard_utf16_boundary
      ⟨"0.1.0", "i", "r@example.com", "2026-01-01T00:00:00.000Z", none,
        "SAFE_REPORT", ⟨"Hi", [("k", .str "v")]⟩, none, none, none⟩
      ⟨["SAFE_REPORT"], 5, none⟩ (fun _ => none) 0).2 (by decide)

end IrsbSolver
